import Mathlib

/-
Verification development for the SentrySearch repository.

Shallow embedding of the hybrid-search Cloudflare worker (src/worker.js),
the KV migration tool (src/scripts/migration/upload-kv-data.js) and the
frontend quality-score utilities (src/frontend/src/lib/utils.ts).

Modelling conventions:
- JS numbers are modelled as rationals (ℚ); the arithmetic in the claims is
  exact linear arithmetic, so ℚ carries it faithfully.
- A JS value that may be `undefined`/`null` is an `Option`.
- A JS `Map` (which preserves insertion order) is an association list; `mapSet`
  updates an existing key in place and appends fresh keys, like `Map.set`.
- External stores and HTTP dependencies (the KV namespace, the embeddings API,
  the vector-search API) are inputs: functions supplied in an environment
  record, universally quantified in the theorems.
-/

namespace SentrySearch

/-! ## Insertion-ordered association map (JS `Map`) -/

section AssocMap

variable {κ : Type} {β : Type} [DecidableEq κ]

/-- `Map.get`: first entry with the given key. -/
def mapGet : List (κ × β) → κ → Option β
  | [], _ => none
  | (k, v) :: m, c => if c = k then some v else mapGet m c

/-- `Map.set`: update an existing key in place, else append (insertion order). -/
def mapSet : List (κ × β) → κ → β → List (κ × β)
  | [], k, v => [(k, v)]
  | (k', v') :: m, k, v => if k = k' then (k', v) :: m else (k', v') :: mapSet m k v

/-- `Map.has`. -/
def mapHas (m : List (κ × β)) (k : κ) : Bool :=
  (mapGet m k).isSome

/-- The keys of the map, in insertion order. -/
def mapKeys (m : List (κ × β)) : List κ :=
  m.map (·.1)

@[simp] theorem mapGet_nil (c : κ) : mapGet ([] : List (κ × β)) c = none := rfl

theorem mapGet_cons (k : κ) (v : β) (m : List (κ × β)) (c : κ) :
    mapGet ((k, v) :: m) c = if c = k then some v else mapGet m c := rfl

theorem mapGet_mapSet_self (m : List (κ × β)) (k : κ) (v : β) :
    mapGet (mapSet m k v) k = some v := by
  induction m with
  | nil => simp [mapSet, mapGet]
  | cons hd tl ih =>
    obtain ⟨k', v'⟩ := hd
    by_cases h : k = k'
    · simp [mapSet, mapGet, h]
    · simp [mapSet, mapGet, h, ih, Ne.symm h]

theorem mapGet_mapSet_ne (m : List (κ × β)) (k c : κ) (v : β) (h : c ≠ k) :
    mapGet (mapSet m k v) c = mapGet m c := by
  induction m with
  | nil => simp [mapSet, mapGet, h]
  | cons hd tl ih =>
    obtain ⟨k', v'⟩ := hd
    by_cases h' : k = k'
    · subst h'
      simp [mapSet, mapGet, h]
    · simp only [mapSet, if_neg h']
      by_cases hc : c = k'
      · simp [mapGet, hc]
      · simp [mapGet, hc, ih]

theorem mapHas_iff_mem_keys (m : List (κ × β)) (k : κ) :
    mapHas m k = true ↔ k ∈ mapKeys m := by
  induction m with
  | nil => simp [mapHas, mapGet, mapKeys]
  | cons hd tl ih =>
    obtain ⟨k', v'⟩ := hd
    by_cases h : k = k'
    · simp [mapHas, mapGet, mapKeys, h]
    · simp only [mapHas, mapGet, if_neg h, mapKeys, List.map_cons, List.mem_cons]
      constructor
      · intro hs
        exact Or.inr ((ih.mp (by simpa [mapHas] using hs)))
      · intro hs
        rcases hs with h1 | h2
        · exact absurd h1 h
        · simpa [mapHas] using ih.mpr h2

theorem mapKeys_mapSet_of_has (m : List (κ × β)) (k : κ) (v : β)
    (h : mapHas m k = true) : mapKeys (mapSet m k v) = mapKeys m := by
  induction m with
  | nil => simp [mapHas, mapGet] at h
  | cons hd tl ih =>
    obtain ⟨k', v'⟩ := hd
    by_cases h' : k = k'
    · simp [mapSet, h', mapKeys]
    · have htl : mapHas tl k = true := by
        simpa [mapHas, mapGet, if_neg h'] using h
      simp [mapSet, if_neg h', mapKeys, List.map_cons]
      have := ih htl
      simpa [mapKeys] using this

theorem mapKeys_mapSet_of_not_has (m : List (κ × β)) (k : κ) (v : β)
    (h : mapHas m k = false) : mapKeys (mapSet m k v) = mapKeys m ++ [k] := by
  induction m with
  | nil => simp [mapSet, mapKeys]
  | cons hd tl ih =>
    obtain ⟨k', v'⟩ := hd
    by_cases h' : k = k'
    · exfalso
      simp [mapHas, mapGet, h'] at h
    · have htl : mapHas tl k = false := by
        simpa [mapHas, mapGet, if_neg h'] using h
      simp [mapSet, if_neg h', mapKeys, List.map_cons]
      have := ih htl
      simpa [mapKeys] using this

theorem nodup_mapKeys_mapSet (m : List (κ × β)) (k : κ) (v : β)
    (h : (mapKeys m).Nodup) : (mapKeys (mapSet m k v)).Nodup := by
  by_cases hh : mapHas m k = true
  · rwa [mapKeys_mapSet_of_has m k v hh]
  · have hf : mapHas m k = false := by simpa using hh
    rw [mapKeys_mapSet_of_not_has m k v hf]
    have hkm : k ∉ mapKeys m := fun hmem => hh ((mapHas_iff_mem_keys m k).mpr hmem)
    simp [List.nodup_append, h, hkm]

theorem mapGet_eq_some_of_mem (m : List (κ × β)) (k : κ) (v : β)
    (hnd : (mapKeys m).Nodup) (hmem : (k, v) ∈ m) : mapGet m k = some v := by
  induction m with
  | nil => simp at hmem
  | cons hd tl ih =>
    obtain ⟨k', v'⟩ := hd
    have hnd' : k' ∉ mapKeys tl ∧ (mapKeys tl).Nodup := by
      simpa [mapKeys] using hnd
    rcases List.mem_cons.mp hmem with h1 | h2
    · have hk : k = k' := (Prod.ext_iff.mp h1).1
      have hv : v = v' := (Prod.ext_iff.mp h1).2
      simp [mapGet, hk, hv]
    · have hkeys : k ∈ mapKeys tl := by
        simpa [mapKeys] using List.mem_map_of_mem Prod.fst h2
      have hne : k ≠ k' := fun he => hnd'.1 (he ▸ hkeys)
      simp only [mapGet, if_neg hne]
      exact ih hnd'.2 h2

theorem mem_of_mapGet_eq_some (m : List (κ × β)) (k : κ) (v : β)
    (h : mapGet m k = some v) : (k, v) ∈ m := by
  induction m with
  | nil => simp [mapGet] at h
  | cons hd tl ih =>
    obtain ⟨k', v'⟩ := hd
    by_cases hk : k = k'
    · subst hk
      simp [mapGet] at h
      simp [h]
    · simp [mapGet, hk] at h
      exact List.mem_cons_of_mem _ (ih h)

end AssocMap

/-! ## Tokenization (worker.js `tokenizeQuery`) -/

/-- The character class `[a-z0-9_]` that survives the regex replacement. -/
def allowedChar (c : Char) : Bool :=
  ('a' ≤ c && c ≤ 'z') || ('0' ≤ c && c ≤ '9') || c == '_'

/-- The regex `\s` class, on the whitespace characters expressible in this
embedding; every character outside `[a-z0-9\s_]` is replaced by a plain space
before splitting, so the choice of `\s` members does not change the token
output. -/
def jsSpace (c : Char) : Bool :=
  c == ' ' || c == '\t' || c == '\n' || c == '\r' || c == '\x0b' || c == '\x0c'

/-- `.replace(/[^a-z0-9\s_]/g, ' ')` applied to one character. -/
def replaceDisallowed (c : Char) : Char :=
  if allowedChar c || jsSpace c then c else ' '

/-- Split a character list at runs of whitespace, accumulating the current
word in reverse. `String.split(/\s+/)` additionally yields empty boundary
segments, all of which the length-≥-2 filter below removes, so they are not
produced here. -/
def splitWsAux : List Char → List Char → List (List Char)
  | [], cur => if cur.isEmpty then [] else [cur.reverse]
  | c :: cs, cur =>
    if jsSpace c then
      if cur.isEmpty then splitWsAux cs [] else cur.reverse :: splitWsAux cs []
    else splitWsAux cs (c :: cur)

def splitWs (l : List Char) : List (List Char) :=
  splitWsAux l []

/-- worker.js:484-494. `if (!query) return []`, lower-case, replace every
character outside `[a-z0-9\s_]` by a space, split on whitespace, keep tokens
of length ≥ 2. -/
def tokenizeQuery (query : String) : List String :=
  if query.isEmpty then []
  else
    let cleaned := (query.toList.map Char.toLower).map replaceDisallowed
    ((splitWs cleaned).map (fun w => String.mk w)).filter (fun t => 2 ≤ t.length)

theorem splitWsAux_sound (cs : List Char) :
    ∀ (cur : List Char), (∀ c ∈ cur, jsSpace c = false) →
      ∀ w ∈ splitWsAux cs cur, w ≠ [] ∧ ∀ c ∈ w, jsSpace c = false ∧ (c ∈ cs ∨ c ∈ cur) := by
  induction cs with
  | nil =>
    intro cur hcur w hw
    by_cases he : cur.isEmpty
    · simp [splitWsAux, he] at hw
    · simp [splitWsAux, he] at hw
      subst hw
      refine ⟨by simpa using fun h => he (by simp [h]), ?_⟩
      intro c hc
      exact ⟨hcur c (List.mem_reverse.mp hc), Or.inr (List.mem_reverse.mp hc)⟩
  | cons c cs ih =>
    intro cur hcur w hw
    by_cases hs : jsSpace c
    · by_cases he : cur.isEmpty
      · simp only [splitWsAux, hs, if_pos rfl, he, if_pos rfl] at hw
        obtain ⟨hne, hmem⟩ := ih [] (by simp) w (by simpa [hs, he] using hw)
        refine ⟨hne, fun d hd => ?_⟩
        obtain ⟨hsp, hin⟩ := hmem d hd
        rcases hin with h1 | h2
        · exact ⟨hsp, Or.inl (List.mem_cons_of_mem _ h1)⟩
        · simp at h2
      · have hw2 : w = cur.reverse ∨ w ∈ splitWsAux cs [] := by
          simpa [splitWsAux, hs, he] using hw
        rcases hw2 with h1 | h2
        · subst h1
          refine ⟨by simpa using fun h => he (by simp [h]), ?_⟩
          intro d hd
          exact ⟨hcur d (List.mem_reverse.mp hd), Or.inr (List.mem_reverse.mp hd)⟩
        · obtain ⟨hne, hmem⟩ := ih [] (by simp) w h2
          refine ⟨hne, fun d hd => ?_⟩
          obtain ⟨hsp, hin⟩ := hmem d hd
          rcases hin with h1 | h2
          · exact ⟨hsp, Or.inl (List.mem_cons_of_mem _ h1)⟩
          · simp at h2
    · have hw' : w ∈ splitWsAux cs (c :: cur) := by simpa [splitWsAux, hs] using hw
      have hcur' : ∀ d ∈ c :: cur, jsSpace d = false := by
        intro d hd
        rcases List.mem_cons.mp hd with h1 | h2
        · simpa [h1] using hs
        · exact hcur d h2
      obtain ⟨hne, hmem⟩ := ih (c :: cur) hcur' w hw'
      refine ⟨hne, fun d hd => ?_⟩
      obtain ⟨hsp, hin⟩ := hmem d hd
      rcases hin with h1 | h2
      · exact ⟨hsp, Or.inl (List.mem_cons_of_mem _ h1)⟩
      · rcases List.mem_cons.mp h2 with h3 | h4
        · exact ⟨hsp, Or.inl (h3 ▸ List.mem_cons_self _ _)⟩
        · exact ⟨hsp, Or.inr h4⟩

theorem splitWs_sound (l : List Char) :
    ∀ w ∈ splitWs l, w ≠ [] ∧ ∀ c ∈ w, jsSpace c = false ∧ c ∈ l := by
  intro w hw
  obtain ⟨hne, hmem⟩ := splitWsAux_sound l [] (by simp) w hw
  refine ⟨hne, fun c hc => ?_⟩
  obtain ⟨hsp, hin⟩ := hmem c hc
  rcases hin with h1 | h2
  · exact ⟨hsp, h1⟩
  · simp at h2

theorem replaceDisallowed_class (c : Char) :
    allowedChar (replaceDisallowed c) = true ∨ jsSpace (replaceDisallowed c) = true := by
  unfold replaceDisallowed
  by_cases h : allowedChar c || jsSpace c
  · rcases Bool.or_eq_true_iff.mp h with h1 | h2
    · exact Or.inl (by simpa [h] using h1)
    · exact Or.inr (by simpa [h] using h2)
  · right
    simp only [if_neg h]
    rfl

/-! ## Data model shared by the worker handlers -/

/-- Raw document/chunk metadata as stored in KV or returned by the vector
index; every field may be absent (`undefined`). `year` is kept as a string:
the worker only compares it for membership in the caller-supplied list. -/
structure Metadata where
  source_title : Option String := none
  source_url : Option String := none
  company : Option String := none
  year : Option String := none
  ml_techniques : Option (List String) := none
  keywords : Option (List String) := none
  chunk_summary : Option String := none
  chunk_index : Option Nat := none
deriving DecidableEq, Repr

/-- Facet filters; a `none` field is an absent key of the `filters` object. -/
structure Filters where
  companies : Option (List String) := none
  years : Option (List String) := none
  techniques : Option (List String) := none
deriving DecidableEq, Repr

/-- `filters && Object.keys(filters).length > 0`: at least one facet key is
present on the filters object. -/
def filtersPresent (f : Filters) : Bool :=
  f.companies.isSome || f.years.isSome || f.techniques.isSome

/-- worker.js:544-565 `passesFilters`. Each active facet is an
exact-membership test; `metadata.ml_techniques || []` defaults to empty. -/
def passesFilters (metadata : Metadata) (filters : Filters) : Bool :=
  (match filters.companies with
   | some cs =>
     if cs.length > 0 then
       match metadata.company with
       | some c => cs.contains c
       | none => false
     else true
   | none => true) &&
  (match filters.years with
   | some ys =>
     if ys.length > 0 then
       match metadata.year with
       | some y => ys.contains y
       | none => false
     else true
   | none => true) &&
  (match filters.techniques with
   | some ts =>
     if ts.length > 0 then
       let docTechniques := metadata.ml_techniques.getD []
       ts.any (fun tech => docTechniques.contains tech)
     else true
   | none => true)

/-! ## Keyword search (worker.js `performKeywordSearch`) -/

/-- One BM25 posting. The worker reads `posting.chunkId || posting.chunk_id`,
so both spellings are modelled; either may be absent. -/
structure Posting where
  chunkId : Option String := none
  chunk_id : Option String := none
  score : ℚ
deriving DecidableEq, Repr

/-- `bm25:term:<term>` KV value; `postingsList` may be absent. -/
structure TermData where
  postingsList : Option (List Posting) := none
deriving DecidableEq, Repr

/-- JS `a || b` on string-or-undefined values (the empty string is falsy). -/
def jsOrStr (a b : Option String) : Option String :=
  match a with
  | some s => if s.isEmpty then b else some s
  | none => b

/-- `posting.chunkId || posting.chunk_id`. -/
def effChunkId (p : Posting) : Option String :=
  jsOrStr p.chunkId p.chunk_id

/-- External stores visible to `performKeywordSearch`: term postings
(`getBM25ScoresForTerm`, `none` on a missing key or a read error) and document
metadata (`getDocumentMetadata`, which already defaults to `{}`; its argument
is the raw chunkId value, possibly `undefined`). -/
structure KWEnv where
  term : String → Option TermData
  docMeta : Option String → Metadata

/-- The two JS `Map`s built while scanning postings. -/
structure KWState where
  documentScores : List (Option String × ℚ)
  documentMetadata : List (Option String × Metadata)

def initKWState : KWState := ⟨[], []⟩

/-- Accumulate: `documentScores.set(c, (documentScores.get(c) ?? 0) + s)`
via the has/get/set sequence of worker.js:399-404. -/
def accumScore (m : List (Option String × ℚ)) (k : Option String) (s : ℚ) :
    List (Option String × ℚ) :=
  match mapGet m k with
  | some v => mapSet m k (v + s)
  | none => mapSet m k s

/-- worker.js:382-405, the body of the inner `for (const posting ...)` loop.
On a first encounter the metadata is fetched and cached and, when filters are
present, a failing posting is skipped (`continue`); on re-encounters the
cached-metadata branch is skipped and the score is accumulated
unconditionally. -/
def processPosting (filters : Filters) (env : KWEnv) (st : KWState) (p : Posting) :
    KWState :=
  let chunkId := effChunkId p
  if mapHas st.documentMetadata chunkId then
    { st with documentScores := accumScore st.documentScores chunkId p.score }
  else
    let docMetadata := env.docMeta chunkId
    let meta' := mapSet st.documentMetadata chunkId docMetadata
    if filtersPresent filters && !passesFilters docMetadata filters then
      { st with documentMetadata := meta' }
    else
      { documentScores := accumScore st.documentScores chunkId p.score,
        documentMetadata := meta' }

/-- worker.js:377-407: the loop over query terms; a term with no KV entry or
no `postingsList` contributes nothing. -/
def kwLoop (filters : Filters) (env : KWEnv) (queryTerms : List String) : KWState :=
  queryTerms.foldl
    (fun st term =>
      match env.term term with
      | some termData =>
        match termData.postingsList with
        | some ps => ps.foldl (processPosting filters env) st
        | none => st
      | none => st)
    initKWState

/-- One keyword search result (worker.js:416-422). -/
structure KWResult where
  chunkId : String
  score : ℚ
  metadata : Metadata
  matchedTerms : List String
deriving DecidableEq, Repr

/-- Descending order on accumulated score: the comparator
`(a, b) => b.score - a.score`. -/
def kwDesc (a b : KWResult) : Prop := b.score ≤ a.score

instance : DecidableRel kwDesc := fun a b => inferInstanceAs (Decidable (b.score ≤ a.score))

instance : IsTotal KWResult kwDesc :=
  ⟨fun a b => (le_total b.score a.score).imp (fun h => h) (fun h => h)⟩

instance : IsTrans KWResult kwDesc := ⟨fun _ _ _ h1 h2 => le_trans h2 h1⟩

/-- worker.js:363-434 `performKeywordSearch`. The KV reads are pure functions
of `env`, so the `try`/`catch` around the body can never fire and is not
modelled. Sorting is a stable sort by score descending, as `Array.sort` with
the comparator `b.score - a.score`. -/
def performKeywordSearch (query : String) (maxResults : Nat) (filters : Filters)
    (env : KWEnv) : List KWResult :=
  let queryTerms := tokenizeQuery query
  if queryTerms.length = 0 then []
  else
    let st := kwLoop filters env queryTerms
    let results := st.documentScores.map (fun kv =>
      let safeChunkId := (jsOrStr kv.1 (some "unknown")).getD "unknown"
      { chunkId := safeChunkId,
        score := kv.2,
        metadata := (mapGet st.documentMetadata kv.1).getD {},
        matchedTerms := queryTerms : KWResult })
    (((results.filter (fun r => r.chunkId ≠ "unknown")).insertionSort kwDesc).take maxResults)

/-! ## Vector search (worker.js `performVectorSearch`, `generateQueryEmbedding`) -/

/-- Outcome of an outbound `fetch`: the call threw, or produced a response
with success flag `ok` and a parsed JSON body. -/
inductive APIOutcome (α : Type) where
  | exn
  | response (ok : Bool) (body : α)
deriving DecidableEq, Repr

/-- `data.data` of the embeddings API response. -/
structure EmbedItem where
  embedding : List ℚ
deriving DecidableEq, Repr

structure EmbedData where
  data : Option (List EmbedItem) := none
deriving DecidableEq, Repr

/-- worker.js:440-479 `generateQueryEmbedding`, as a function of the
embeddings-API call outcome: a thrown fetch, a non-ok response, or a body
without a non-empty `data` array all yield `null`. -/
def generateQueryEmbedding (outcome : APIOutcome EmbedData) : Option (List ℚ) :=
  match outcome with
  | .exn => none
  | .response ok body =>
    if !ok then none
    else
      match body.data with
      | some (item :: _) => some item.embedding
      | _ => none

/-- `$in`-style Pinecone metadata predicate (worker.js:570-586). -/
structure PineconeFilter where
  company : Option (List String) := none
  year : Option (List String) := none
  ml_techniques : Option (List String) := none
deriving DecidableEq, Repr

/-- worker.js:570-586 `buildPineconeFilter`: one `$in` clause per non-empty
facet, `undefined` when no clause was added. -/
def buildPineconeFilter (filters : Filters) : Option PineconeFilter :=
  let pf : PineconeFilter :=
    { company :=
        match filters.companies with
        | some cs => if cs.length > 0 then some cs else none
        | none => none,
      year :=
        match filters.years with
        | some ys => if ys.length > 0 then some ys else none
        | none => none,
      ml_techniques :=
        match filters.techniques with
        | some ts => if ts.length > 0 then some ts else none
        | none => none }
  if pf.company.isNone && pf.year.isNone && pf.ml_techniques.isNone then none
  else some pf

/-- The Pinecone query object built at worker.js:315-325. -/
structure PineconeQuery where
  vector : List ℚ
  topK : Nat
  includeMetadata : Bool
  includeValues : Bool
  filter : Option PineconeFilter := none
deriving DecidableEq, Repr

structure PMatch where
  id : String
  score : ℚ
  metadata : Metadata
deriving DecidableEq, Repr

/-- Pinecone response body; the `matches` field may be absent
(`data.matches || []`); it is named `matchList` here because `matches` is a
reserved word in Lean. -/
structure PineconeData where
  matchList : Option (List PMatch) := none
deriving DecidableEq, Repr

/-- One vector search result (worker.js:347-352). -/
structure VecResult where
  chunkId : String
  score : ℚ
  metadata : Metadata
deriving DecidableEq, Repr

/-- Outbound dependencies of the vector branch. -/
structure VecEnv where
  embedOutcome : String → APIOutcome EmbedData
  queryOutcome : PineconeQuery → APIOutcome PineconeData

def mkPineconeQuery (emb : List ℚ) (maxResults : Nat) (filters : Filters) :
    PineconeQuery :=
  { vector := emb,
    topK := maxResults,
    includeMetadata := true,
    includeValues := false,
    filter := if filtersPresent filters then buildPineconeFilter filters else none }

/-- worker.js:300-358 `performVectorSearch`. A `null` embedding returns `[]`
before the index is queried; a thrown fetch or a non-ok index response is
caught (the code throws on `!response.ok`) and the branch returns `[]`. -/
def performVectorSearch (query : String) (maxResults : Nat) (filters : Filters)
    (env : VecEnv) : List VecResult :=
  match generateQueryEmbedding (env.embedOutcome query) with
  | none => []
  | some emb =>
    match env.queryOutcome (mkPineconeQuery emb maxResults filters) with
    | .exn => []
    | .response ok body =>
      if !ok then []
      else (body.matchList.getD []).map (fun m =>
        { chunkId := m.id, score := m.score, metadata := m.metadata : VecResult })

/-! ## Hybrid combination (worker.js `combineSearchResults`) -/

/-- `retrievalMethod` values. -/
inductive RMethod where
  | vector
  | keyword
  | hybrid
deriving DecidableEq, Repr

/-- The formatted metadata of worker.js:691-702 `formatMetadata`; every field
is total (falsy raw fields default). -/
structure FormattedMetadata where
  sourceTitle : String
  sourceUrl : String
  company : String
  year : String
  mlTechniques : List String
  keywords : List String
  chunkSummary : String
  chunkIndex : Nat
deriving DecidableEq, Repr

def formatMetadata (m : Metadata) : FormattedMetadata :=
  { sourceTitle := m.source_title.getD "",
    sourceUrl := m.source_url.getD "",
    company := m.company.getD "",
    year := m.year.getD "",
    mlTechniques := m.ml_techniques.getD [],
    keywords := m.keywords.getD [],
    chunkSummary := m.chunk_summary.getD "",
    chunkIndex := m.chunk_index.getD 0 }

structure Scores where
  vectorScore : ℚ
  keywordScore : ℚ
  hybridScore : ℚ
  applicabilityScore : ℚ
deriving DecidableEq, Repr

structure CombinedEntry where
  chunkId : String
  content : String
  enrichedContent : String
  metadata : FormattedMetadata
  scores : Scores
  retrievalMethod : RMethod
  matchedTerms : List String
deriving DecidableEq, Repr

structure Weights where
  vector : ℚ
  keyword : ℚ
deriving DecidableEq, Repr

/-- Per-query search results fed into the merge. -/
structure QueryResult where
  query : String
  vectorResults : List VecResult
  keywordResults : List KWResult
deriving DecidableEq, Repr

/-- `[...new Set([...a, ...b])]`: concatenation deduplicated keeping first
occurrences (JS `Set` iterates in insertion order). -/
def jsDedupAux (seen : List String) : List String → List String
  | [] => []
  | a :: l => if a ∈ seen then jsDedupAux seen l else a :: jsDedupAux (a :: seen) l

def jsDedup (l : List String) : List String := jsDedupAux [] l

/-- worker.js:599-621, the vector-results loop body. Note that the existing
branch sets `retrievalMethod = 'hybrid'` unconditionally. -/
def addVectorResult (m : List (String × CombinedEntry)) (r : VecResult) :
    List (String × CombinedEntry) :=
  match mapGet m r.chunkId with
  | some existing =>
    mapSet m r.chunkId
      { existing with
        scores := { existing.scores with
          vectorScore := max existing.scores.vectorScore r.score },
        retrievalMethod := .hybrid }
  | none =>
    mapSet m r.chunkId
      { chunkId := r.chunkId,
        content := "",
        enrichedContent := "",
        metadata := formatMetadata r.metadata,
        scores := { vectorScore := r.score, keywordScore := 0,
                    hybridScore := 0, applicabilityScore := 0 },
        retrievalMethod := .vector,
        matchedTerms := [] }

/-- worker.js:624-647, the keyword-results loop body; same unconditional
`'hybrid'` on the existing branch, plus the matched-terms set union. -/
def addKeywordResult (m : List (String × CombinedEntry)) (r : KWResult) :
    List (String × CombinedEntry) :=
  match mapGet m r.chunkId with
  | some existing =>
    mapSet m r.chunkId
      { existing with
        scores := { existing.scores with
          keywordScore := max existing.scores.keywordScore r.score },
        retrievalMethod := .hybrid,
        matchedTerms := jsDedup (existing.matchedTerms ++ r.matchedTerms) }
  | none =>
    mapSet m r.chunkId
      { chunkId := r.chunkId,
        content := "",
        enrichedContent := "",
        metadata := formatMetadata r.metadata,
        scores := { vectorScore := 0, keywordScore := r.score,
                    hybridScore := 0, applicabilityScore := 0 },
        retrievalMethod := .keyword,
        matchedTerms := r.matchedTerms }

/-- The merge map after the per-query loops of worker.js:595-648. -/
def mergeLoop (searchResults : List QueryResult) : List (String × CombinedEntry) :=
  searchResults.foldl
    (fun m qr =>
      let m1 := qr.vectorResults.foldl addVectorResult m
      qr.keywordResults.foldl addKeywordResult m1)
    []

/-- `doc:<chunkId>` content record (`getDocumentContent` already defaults every
field on a missing document or a read error). -/
structure DocContent where
  content : String := ""
  enrichedContent : String := ""
  metadata : Metadata := {}
deriving DecidableEq, Repr

structure ContentEnv where
  docContent : String → DocContent

/-- worker.js:591-686 `combineSearchResults`: merge, hydrate content per
unique chunkId, compute hybrid/applicability scores, and optionally keep only
hybrid rows. The metadata merge `{...result.metadata, ...formatMetadata(...)}`
spreads a fully-populated record on the right, so it equals the content-store
metadata. -/
def combineSearchResults (searchResults : List QueryResult) (hybridWeights : Weights)
    (requireBothMethods : Bool) (env : ContentEnv) : List CombinedEntry :=
  let merged := mergeLoop searchResults
  let hydrated := merged.map (fun kv =>
    let cd := env.docContent kv.1
    { kv.2 with
      content := cd.content,
      enrichedContent := cd.enrichedContent,
      metadata := formatMetadata cd.metadata })
  let results := hydrated.map (fun e =>
    { e with
      scores := { e.scores with
        hybridScore := e.scores.vectorScore * hybridWeights.vector +
          e.scores.keywordScore * hybridWeights.keyword,
        applicabilityScore := if e.retrievalMethod = .hybrid then 8/10 else 6/10 } })
  if requireBothMethods then results.filter (fun r => r.retrievalMethod = .hybrid)
  else results

/-! ## HTTP handlers (worker.js `handleHybridSearch` / `handleVectorSearch` /
`handleKeywordSearch`) -/

/-- All outbound dependencies of a search request. -/
structure SearchEnv where
  kw : KWEnv
  vec : VecEnv
  content : ContentEnv

/-- worker.js:283-295 `performHybridSearchForQuery`. -/
def performHybridSearchForQuery (query : String) (maxResults : Nat)
    (filters : Filters) (env : SearchEnv) : QueryResult :=
  { query := query,
    vectorResults := performVectorSearch query maxResults filters env.vec,
    keywordResults := performKeywordSearch query maxResults filters env.kw }

/-- Parsed `/hybrid-search` request body; each field may be absent. -/
structure HybridBody where
  queries : Option (List String) := none
  maxResults : Option Nat := none
  hybridWeights : Option Weights := none
  filters : Option Filters := none
  requireBothMethods : Option Bool := none

/-- The destructuring default `hybridWeights = { vector: 0.6, keyword: 0.4 }`
of worker.js:229. -/
def resolveHybridWeights (w : Option Weights) : Weights :=
  w.getD { vector := 6/10, keyword := 4/10 }

/-- Response bodies, by shape; `processingTimeMs` is wall-clock time and is
not modelled. -/
inductive RespBody where
  | empty
  | text (s : String)
  | invalidRequest (message : String)
  | searchFailed
  | hybridPayload (results : List CombinedEntry) (totalResults : Nat)
      (vectorResults : Nat) (keywordResults : Nat) (hybridResults : Nat)
      (queriesProcessed : List String)
  | vecPayload (results : List VecResult)
  | kwPayload (results : List KWResult)

structure HttpResponse where
  status : Nat
  headers : List (String × String)
  body : RespBody

/-- worker.js:823-829 `getCorsHeaders`. -/
def getCorsHeaders : List (String × String) :=
  [("Access-Control-Allow-Origin", "*"),
   ("Access-Control-Allow-Methods", "GET, POST, OPTIONS"),
   ("Access-Control-Allow-Headers", "Content-Type, Authorization")]

def contentTypeJson : List (String × String) :=
  [("Content-Type", "application/json")]

/-- Descending order on hybrid score (worker.js:250). -/
def hybridDesc (a b : CombinedEntry) : Prop :=
  b.scores.hybridScore ≤ a.scores.hybridScore

instance : DecidableRel hybridDesc :=
  fun a b => inferInstanceAs (Decidable (b.scores.hybridScore ≤ a.scores.hybridScore))

instance : IsTotal CombinedEntry hybridDesc :=
  ⟨fun a b => (le_total b.scores.hybridScore a.scores.hybridScore).imp
    (fun h => h) (fun h => h)⟩

instance : IsTrans CombinedEntry hybridDesc :=
  ⟨fun _ _ _ h1 h2 => le_trans h2 h1⟩

/-- worker.js:217-278 `handleHybridSearch`. A body whose JSON parse throws is
caught by the handler's `catch` and becomes the 500 `SEARCH_FAILED` response;
everything after the parse is pure in this embedding and cannot throw. -/
def handleHybridSearch (method : String) (body : Except Unit HybridBody)
    (env : SearchEnv) : HttpResponse :=
  if method ≠ "POST" then
    { status := 405, headers := [], body := .text "Method Not Allowed" }
  else
    match body with
    | .error _ => { status := 500, headers := contentTypeJson, body := .searchFailed }
    | .ok b =>
      let queries := b.queries.getD []
      let maxResults := b.maxResults.getD 10
      let hybridWeights := resolveHybridWeights b.hybridWeights
      let filters := b.filters.getD {}
      let requireBothMethods := b.requireBothMethods.getD false
      if queries.length = 0 then
        { status := 400, headers := contentTypeJson,
          body := .invalidRequest "At least one query is required" }
      else
        let searchResults := queries.map
          (fun q => performHybridSearchForQuery q maxResults filters env)
        let combinedResults :=
          combineSearchResults searchResults hybridWeights requireBothMethods env.content
        let finalResults := (combinedResults.insertionSort hybridDesc).take maxResults
        { status := 200,
          headers := contentTypeJson ++ getCorsHeaders,
          body := .hybridPayload finalResults finalResults.length
            (combinedResults.filter (fun r =>
              r.retrievalMethod = .vector ∨ r.retrievalMethod = .hybrid)).length
            (combinedResults.filter (fun r =>
              r.retrievalMethod = .keyword ∨ r.retrievalMethod = .hybrid)).length
            (combinedResults.filter (fun r => r.retrievalMethod = .hybrid)).length
            queries }

/-- Parsed `/vector-search` and `/keyword-search` request body. -/
structure SingleBody where
  query : Option String := none
  maxResults : Option Nat := none
  filters : Option Filters := none

/-- worker.js:707-736 `handleVectorSearch`. `if (!query)` rejects both an
absent and an empty query string. -/
def handleVectorSearch (method : String) (body : Except Unit SingleBody)
    (env : VecEnv) : HttpResponse :=
  if method ≠ "POST" then
    { status := 405, headers := [], body := .text "Method Not Allowed" }
  else
    match body with
    | .error _ => { status := 500, headers := contentTypeJson, body := .searchFailed }
    | .ok b =>
      if (b.query.getD "").isEmpty then
        { status := 400, headers := contentTypeJson,
          body := .invalidRequest "Query is required" }
      else
        { status := 200,
          headers := contentTypeJson ++ getCorsHeaders,
          body := .vecPayload
            (performVectorSearch (b.query.getD "") (b.maxResults.getD 10)
              (b.filters.getD {}) env) }

/-- worker.js:741-770 `handleKeywordSearch`. -/
def handleKeywordSearch (method : String) (body : Except Unit SingleBody)
    (env : KWEnv) : HttpResponse :=
  if method ≠ "POST" then
    { status := 405, headers := [], body := .text "Method Not Allowed" }
  else
    match body with
    | .error _ => { status := 500, headers := contentTypeJson, body := .searchFailed }
    | .ok b =>
      if (b.query.getD "").isEmpty then
        { status := 400, headers := contentTypeJson,
          body := .invalidRequest "Query is required" }
      else
        { status := 200,
          headers := contentTypeJson ++ getCorsHeaders,
          body := .kwPayload
            (performKeywordSearch (b.query.getD "") (b.maxResults.getD 10)
              (b.filters.getD {}) env) }

/-! ## KV migration tool (scripts/migration/upload-kv-data.js) -/

/-- One physical line of a dataset file after `content.trim().split('\n')`:
blank (`line.trim()` empty), JSON that fails to parse, or a parsed object
recorded by the JS truthiness of its `key` and `value` fields. -/
inductive JLine where
  | blank
  | malformed
  | entry (keyTruthy : Bool) (valueTruthy : Bool)
deriving DecidableEq, Repr

abbrev KVFile := List JLine

/-- The `KV_FILES` table of upload-kv-data.js:16-33. -/
def kvFileNames : List String :=
  ["kv_documents.jsonl", "kv_term_indices.jsonl",
   "kv_company_terms.jsonl", "kv_metadata.jsonl"]

/-- Console events emitted by `validateKVData`, abstracting the log lines. -/
inductive VEvent where
  | missingFile (name : String)
  | invalidFormat (name : String) (lineNo : Nat)
  | validFormat (name : String)
  | parseFailure (name : String)
deriving DecidableEq, Repr

/-- upload-kv-data.js:153-166, the per-file loop over
`i < Math.min(lines.length, 3)` (applied below to `file.take 3`): a blank
line is skipped but consumes an iteration, a JSON parse error aborts the
file's validation via the surrounding `catch`, a parsed line missing `key` or
`value` is reported invalid (`continue`), and the first valid line ends the
loop (`break`). -/
def checkLines (name : String) : List JLine → Nat → List VEvent
  | [], _ => []
  | .blank :: rest, i => checkLines name rest (i + 1)
  | .malformed :: _, _ => [VEvent.parseFailure name]
  | .entry k v :: rest, i =>
    if k && v then [VEvent.validFormat name]
    else VEvent.invalidFormat name (i + 1) :: checkLines name rest (i + 1)

/-- upload-kv-data.js:138-172 `validateKVData`: purely reads the dataset
files; it contains no KV write. -/
def validateKVData (files : String → Option KVFile) : List VEvent :=
  kvFileNames.flatMap (fun name =>
    match files name with
    | none => [VEvent.missingFile name]
    | some f => checkLines name (f.take 3) 0)

/-- A write against the KV namespace; the upload path issues one
`wrangler kv:bulk put` per existing dataset file (upload-kv-data.js:93). -/
inductive KVWrite where
  | bulkPut (file : String)
deriving DecidableEq, Repr

structure MainOutcome where
  events : List VEvent
  writes : List KVWrite

/-- The writes of `uploadKVData`, at per-file bulk granularity. -/
def uploadWrites (files : String → Option KVFile) : List KVWrite :=
  kvFileNames.filterMap (fun name =>
    match files name with
    | some _ => some (KVWrite.bulkPut name)
    | none => none)

/-- upload-kv-data.js:193-207 `main`: `--help` wins, then `--validate` runs
validation only, otherwise the upload runs. -/
def mainRun (args : List String) (files : String → Option KVFile) : MainOutcome :=
  if args.contains "--help" then { events := [], writes := [] }
  else if args.contains "--validate" then
    { events := validateKVData files, writes := [] }
  else { events := [], writes := uploadWrites files }

/-! ## Frontend quality-score mapping (frontend/src/lib/utils.ts) -/

inductive BadgeVariant where
  | success
  | info
  | warning
  | error
deriving DecidableEq, Repr

/-- utils.ts:113-118 `getQualityBadgeVariant`. -/
def getQualityBadgeVariant (score : ℚ) : BadgeVariant :=
  if score ≥ 4 then .success
  else if score ≥ 3 then .info
  else if score ≥ 2 then .warning
  else .error

/-! ## Derived specification-side definitions -/

/-- The postings a term contributes (nothing for a missing term or a missing
`postingsList`). -/
def postingsOfTerm (env : KWEnv) (t : String) : List Posting :=
  match env.term t with
  | some td => td.postingsList.getD []
  | none => []

/-- All postings scanned for a query, in scan order, one block per term
occurrence. -/
def flatPostings (env : KWEnv) (query : String) : List Posting :=
  (tokenizeQuery query).flatMap (postingsOfTerm env)

/-- The total BM25 score a chunk accumulates over every matched posting of
every term occurrence of the query. -/
def sumScoresFor (env : KWEnv) (query : String) (c : String) : ℚ :=
  (((flatPostings env query).filter (fun p => effChunkId p = some c)).map
    (fun p => p.score)).sum

/-- One accumulation step of the keyword-search score map. -/
def accumStep (m : List (Option String × ℚ)) (p : Posting) :
    List (Option String × ℚ) :=
  accumScore m (effChunkId p) p.score

/-- Folding a score over an optional previous total. -/
def addOpt (o : Option ℚ) (rel : List Posting) : Option ℚ :=
  match o, rel with
  | o, [] => o
  | none, rel => some ((rel.map (fun p => p.score)).sum)
  | some v, rel => some (v + (rel.map (fun p => p.score)).sum)

/-- A single contribution to the hybrid merge: one vector or keyword hit. -/
structure Hit where
  chunkId : String
  isVector : Bool
  score : ℚ
  metadata : Metadata
  matchedTerms : List String
deriving DecidableEq, Repr

def vecHit (r : VecResult) : Hit :=
  { chunkId := r.chunkId, isVector := true, score := r.score,
    metadata := r.metadata, matchedTerms := [] }

def kwHit (r : KWResult) : Hit :=
  { chunkId := r.chunkId, isVector := false, score := r.score,
    metadata := r.metadata, matchedTerms := r.matchedTerms }

/-- The hits of one query's results, in the merge's processing order
(vector results first, then keyword results). -/
def queryHits (qr : QueryResult) : List Hit :=
  qr.vectorResults.map vecHit ++ qr.keywordResults.map kwHit

/-- All hits of all queries, in processing order. -/
def allHits (sr : List QueryResult) : List Hit :=
  sr.flatMap queryHits

/-- The hits contributing to one chunkId. -/
def hitsFor (c : String) (hs : List Hit) : List Hit :=
  hs.filter (fun h => h.chunkId = c)

/-- One merge step over a single hit; `addVectorResult`/`addKeywordResult`
are exactly this step on the corresponding hit. -/
def stepHit (m : List (String × CombinedEntry)) (h : Hit) :
    List (String × CombinedEntry) :=
  match mapGet m h.chunkId with
  | some existing =>
    if h.isVector then
      mapSet m h.chunkId
        { existing with
          scores := { existing.scores with
            vectorScore := max existing.scores.vectorScore h.score },
          retrievalMethod := .hybrid }
    else
      mapSet m h.chunkId
        { existing with
          scores := { existing.scores with
            keywordScore := max existing.scores.keywordScore h.score },
          retrievalMethod := .hybrid,
          matchedTerms := jsDedup (existing.matchedTerms ++ h.matchedTerms) }
  | none =>
    if h.isVector then
      mapSet m h.chunkId
        { chunkId := h.chunkId, content := "", enrichedContent := "",
          metadata := formatMetadata h.metadata,
          scores := { vectorScore := h.score, keywordScore := 0,
                      hybridScore := 0, applicabilityScore := 0 },
          retrievalMethod := .vector, matchedTerms := [] }
    else
      mapSet m h.chunkId
        { chunkId := h.chunkId, content := "", enrichedContent := "",
          metadata := formatMetadata h.metadata,
          scores := { vectorScore := 0, keywordScore := h.score,
                      hybridScore := 0, applicabilityScore := 0 },
          retrievalMethod := .keyword, matchedTerms := h.matchedTerms }

/-- Vector-hit scores of a hit list. -/
def vScores (l : List Hit) : List ℚ :=
  (l.filter (fun h => h.isVector)).map (fun h => h.score)

/-- Keyword-hit scores of a hit list. -/
def kScores (l : List Hit) : List ℚ :=
  (l.filter (fun h => !h.isVector)).map (fun h => h.score)

/-- `Math.max` folded from 0 (the initial score of the missing side). -/
def foldMax0 (l : List ℚ) : ℚ :=
  l.foldl max 0

/-- Hydration plus score computation applied to one merge-map entry
(worker.js:650-678). -/
def finalizeEntry (w : Weights) (env : ContentEnv) (kv : String × CombinedEntry) :
    CombinedEntry :=
  let cd := env.docContent kv.1
  let e := { kv.2 with
    content := cd.content,
    enrichedContent := cd.enrichedContent,
    metadata := formatMetadata cd.metadata }
  { e with scores := { e.scores with
      hybridScore := e.scores.vectorScore * w.vector +
        e.scores.keywordScore * w.keyword,
      applicabilityScore := if e.retrievalMethod = .hybrid then 8/10 else 6/10 } }

/-- The CORS discipline claimed for the three POST search routes: a 200
response carries the three CORS headers, a 400/500 response built inside the
handler carries exactly the `Content-Type` header. -/
def corsContract (r : HttpResponse) : Prop :=
  (r.status = 200 →
    ("Access-Control-Allow-Origin", "*") ∈ r.headers ∧
    ("Access-Control-Allow-Methods", "GET, POST, OPTIONS") ∈ r.headers ∧
    ("Access-Control-Allow-Headers", "Content-Type, Authorization") ∈ r.headers) ∧
  ((r.status = 400 ∨ r.status = 500) → r.headers = contentTypeJson)

/-! ## Concrete example inputs used by closed theorems and witnesses -/

/-- Filters requiring company `Acme`. -/
def exFiltersA : Filters := { companies := some ["Acme"] }

/-- Two terms both posting to chunk `X`, whose metadata fails `exFiltersA`. -/
def exEnvA : KWEnv :=
  { term := fun t =>
      if t = "alpha" then
        some { postingsList := some [{ chunkId := some "X", score := 1 }] }
      else if t = "beta" then
        some { postingsList := some [{ chunkId := some "X", score := 2 }] }
      else none,
    docMeta := fun c => if c = some "X" then { company := some "Other" } else {} }

/-- A one-term environment with a single posting. -/
def exEnvB : KWEnv :=
  { term := fun t =>
      if t = "aa" then
        some { postingsList := some [{ chunkId := some "X", score := 1 }] }
      else none,
    docMeta := fun _ => {} }

def trivContentEnv : ContentEnv := ⟨fun _ => {}⟩

def exVecEnv0 : VecEnv := ⟨fun _ => .exn, fun _ => .exn⟩

def exKWEnv0 : KWEnv := ⟨fun _ => none, fun _ => {}⟩

def exSearchEnv : SearchEnv := ⟨exKWEnv0, exVecEnv0, trivContentEnv⟩

/-- Two queries that both produce only a vector hit for chunk `X`. -/
def exVecOnlySR : List QueryResult :=
  [{ query := "q1",
     vectorResults := [{ chunkId := "X", score := 2, metadata := {} }],
     keywordResults := [] },
   { query := "q2",
     vectorResults := [{ chunkId := "X", score := 1, metadata := {} }],
     keywordResults := [] }]

/-- The single merged entry produced from `exVecOnlySR` under weights
`{vector := 2, keyword := 3}`; score fields are written as the unreduced
expressions the merge computes. -/
def exVecOnlyEntry : CombinedEntry :=
  { chunkId := "X", content := "", enrichedContent := "",
    metadata := formatMetadata {},
    scores := { vectorScore := max 2 1, keywordScore := 0,
                hybridScore := max 2 1 * 2 + 0 * 3, applicabilityScore := 8/10 },
    retrievalMethod := .hybrid, matchedTerms := [] }

/-- A vector-only query result with a negative similarity score. -/
def qrNegVec : QueryResult :=
  { query := "a",
    vectorResults := [{ chunkId := "X", score := -1, metadata := {} }],
    keywordResults := [] }

/-- A keyword-only query result for the same chunk. -/
def qrKw : QueryResult :=
  { query := "b",
    vectorResults := [],
    keywordResults := [{ chunkId := "X", score := 1, metadata := {},
                         matchedTerms := ["b"] }] }

/-- A vector-only query result with a nonnegative score. -/
def qrPosVec : QueryResult :=
  { query := "a",
    vectorResults := [{ chunkId := "X", score := 2, metadata := {} }],
    keywordResults := [] }

/-- One query contributing a vector hit (score 2) and a keyword hit
(score 3) to chunk `X`. -/
def exC5SR : List QueryResult :=
  [{ query := "q",
     vectorResults := [{ chunkId := "X", score := 2, metadata := {} }],
     keywordResults := [{ chunkId := "X", score := 3, metadata := {},
                          matchedTerms := ["q"] }] }]

/-- The merged entry produced from `exC5SR` under weights
`{vector := 2, keyword := 3}`; score fields are written as the unreduced
expressions the merge computes. -/
def exC5Entry : CombinedEntry :=
  { chunkId := "X", content := "", enrichedContent := "",
    metadata := formatMetadata {},
    scores := { vectorScore := 2, keywordScore := max 0 3,
                hybridScore := 2 * 2 + max 0 3 * 3, applicabilityScore := 8/10 },
    retrievalMethod := .hybrid, matchedTerms := ["q"] }

/-- The single keyword result produced by `exEnvB` for query `"aa bb"`. -/
def exKWR : KWResult :=
  { chunkId := "X", score := 1, metadata := {}, matchedTerms := ["aa", "bb"] }

/-- A dataset whose documents file's first data line lacks a `value`. -/
def exFilesInvalid : String → Option KVFile :=
  fun n => if n = "kv_documents.jsonl" then some [JLine.entry true false] else none

/-! ## C9: quality-score badge bands -/

/-- C9: `getQualityBadgeVariant` returns `success` exactly on scores ≥ 4.0,
`info` on [3.0, 4.0), `warning` on [2.0, 3.0) and `error` below 2.0, with the
lower edge of each band inclusive; in particular 4.0 ↦ success,
3.9999 ↦ info, 1.0 and 0.0 ↦ error. -/
theorem quality_badge_variant_bands :
    (∀ s : ℚ,
      (getQualityBadgeVariant s = .success ↔ 4 ≤ s) ∧
      (getQualityBadgeVariant s = .info ↔ 3 ≤ s ∧ s < 4) ∧
      (getQualityBadgeVariant s = .warning ↔ 2 ≤ s ∧ s < 3) ∧
      (getQualityBadgeVariant s = .error ↔ s < 2)) ∧
    getQualityBadgeVariant 4 = .success ∧
    getQualityBadgeVariant (39999/10000) = .info ∧
    getQualityBadgeVariant 3 = .info ∧
    getQualityBadgeVariant 2 = .warning ∧
    getQualityBadgeVariant 1 = .error ∧
    getQualityBadgeVariant 0 = .error := by
  have hvar : ∀ s : ℚ,
      (getQualityBadgeVariant s = .success ↔ 4 ≤ s) ∧
      (getQualityBadgeVariant s = .info ↔ 3 ≤ s ∧ s < 4) ∧
      (getQualityBadgeVariant s = .warning ↔ 2 ≤ s ∧ s < 3) ∧
      (getQualityBadgeVariant s = .error ↔ s < 2) := by
    intro s
    unfold getQualityBadgeVariant
    split_ifs with h1 h2 h3
    · exact ⟨iff_of_true rfl h1,
        iff_of_false (by simp) (fun h => absurd h1 (not_le.mpr h.2)),
        iff_of_false (by simp) (fun h => absurd h1 (not_le.mpr (h.2.trans (by norm_num)))),
        iff_of_false (by simp) (not_lt.mpr (le_trans (by norm_num) h1))⟩
    · exact ⟨iff_of_false (by simp) (fun h => h1 h),
        iff_of_true rfl ⟨h2, lt_of_not_ge h1⟩,
        iff_of_false (by simp) (fun h => absurd h2 (not_le.mpr h.2)),
        iff_of_false (by simp) (not_lt.mpr (le_trans (by norm_num) h2))⟩
    · exact ⟨iff_of_false (by simp) (fun h => h1 (le_trans (by norm_num) h)),
        iff_of_false (by simp) (fun h => h2 h.1),
        iff_of_true rfl ⟨h3, lt_of_not_ge h2⟩,
        iff_of_false (by simp) (not_lt.mpr h3)⟩
    · exact ⟨iff_of_false (by simp) (fun h => h1 (le_trans (by norm_num) h)),
        iff_of_false (by simp) (fun h => h2 h.1),
        iff_of_false (by simp) (fun h => h3 h.1),
        iff_of_true rfl (lt_of_not_ge h3)⟩
  refine ⟨hvar, ?_, ?_, ?_, ?_, ?_, ?_⟩
  · exact (hvar 4).1.mpr (by norm_num)
  · exact (hvar _).2.1.mpr (by norm_num)
  · exact (hvar 3).2.1.mpr (by norm_num)
  · exact (hvar 2).2.2.1.mpr (by norm_num)
  · exact (hvar 1).2.2.2.mpr (by norm_num)
  · exact (hvar 0).2.2.2.mpr (by norm_num)

/-! ## C6: query tokenization -/

/-- C6: tokenization lower-cases, replaces characters outside `[a-z0-9\s_]`
by spaces, splits on whitespace and drops tokens shorter than 2 characters;
the worked example holds, the empty query tokenizes to `[]`, and every token
of any query has length ≥ 2 and draws only on `[a-z0-9_]`. -/
theorem tokenizeQuery_spec :
    tokenizeQuery "Hello, Netflix! 2019_breach" = ["hello", "netflix", "2019_breach"] ∧
    tokenizeQuery "" = [] ∧
    ∀ q : String, ∀ t ∈ tokenizeQuery q,
      2 ≤ t.length ∧ ∀ c ∈ t.toList, allowedChar c = true := by
  refine ⟨by decide, by decide, fun q t ht => ?_⟩
  unfold tokenizeQuery at ht
  by_cases hq : q.isEmpty
  · simp [hq] at ht
  · rw [if_neg hq] at ht
    obtain ⟨htmem, hlen⟩ := List.mem_filter.mp ht
    obtain ⟨w, hw, rfl⟩ := List.mem_map.mp htmem
    refine ⟨by simpa using hlen, fun c hc => ?_⟩
    have hc' : c ∈ w := by simpa [String.toList] using hc
    obtain ⟨_, hall⟩ := splitWs_sound _ w hw
    obtain ⟨hsp, hin⟩ := hall c hc'
    obtain ⟨d, _, rfl⟩ := List.mem_map.mp hin
    rcases replaceDisallowed_class d with h1 | h2
    · exact h1
    · rw [h2] at hsp
      cases hsp

/-- Witness for C6 at a concrete query and token. -/
theorem tokenizeQuery_spec_witness :
    "ab" ∈ tokenizeQuery "ab cd" ∧
    2 ≤ ("ab" : String).length ∧ ∀ c ∈ ("ab" : String).toList, allowedChar c = true :=
  ⟨by decide, tokenizeQuery_spec.2.2 "ab cd" "ab" (by decide)⟩

/-! ## C7: vector-search failure degradation -/

/-- Success flag of an outbound call outcome. -/
def isSuccess {α : Type} : APIOutcome α → Bool
  | .response true _ => true
  | _ => false

/-- C7: `performVectorSearch` degrades to `[]` whenever embedding generation
yields `null` (which it does on a thrown fetch, a non-ok response, or a
response without a non-empty `data` array), and to `[]` whenever the
vector-index call throws or responds non-ok. -/
theorem vector_search_degrades :
    ∀ (q : String) (mr : Nat) (f : Filters) (env : VecEnv),
      (generateQueryEmbedding (env.embedOutcome q) = none →
        performVectorSearch q mr f env = []) ∧
      (∀ emb, generateQueryEmbedding (env.embedOutcome q) = some emb →
        isSuccess (env.queryOutcome (mkPineconeQuery emb mr f)) = false →
        performVectorSearch q mr f env = []) ∧
      (∀ o : APIOutcome EmbedData,
        (o = .exn ∨ isSuccess o = false ∨
          ∃ b, o = .response true b ∧ b.data.getD [] = []) →
        generateQueryEmbedding o = none) := by
  intro q mr f env
  refine ⟨?_, ?_, ?_⟩
  · intro h
    unfold performVectorSearch
    rw [h]
  · intro emb hemb hfail
    cases ho : env.queryOutcome (mkPineconeQuery emb mr f) with
    | exn => simp [performVectorSearch, hemb, ho]
    | response ok body =>
      cases ok with
      | false => simp [performVectorSearch, hemb, ho]
      | true =>
        rw [ho] at hfail
        simp [isSuccess] at hfail
  · intro o ho
    rcases ho with h1 | h2 | ⟨b, hb, hdata⟩
    · subst h1
      rfl
    · cases o with
      | exn => rfl
      | response ok body =>
        cases ok with
        | false => rfl
        | true => simp [isSuccess] at h2
    · subst hb
      unfold generateQueryEmbedding
      cases hd : b.data with
      | none => simp [hd]
      | some items =>
        cases items with
        | nil => simp [hd]
        | cons it tl =>
          rw [hd] at hdata
          simp at hdata

/-- Witness for C7: an environment whose embeddings fetch throws. -/
theorem vector_search_degrades_witness :
    performVectorSearch "x" 5 {} exVecEnv0 = [] :=
  (vector_search_degrades "x" 5 {} exVecEnv0).1 rfl

/-! ## C1: filters enforced only at first encounter per chunk per query -/

/-- C1: with company filter `["Acme"]` and chunk `X` (company `Other`)
failing it, the first-encountered posting (term `alpha`, score 1) is skipped,
yet the same chunk accumulates unconditionally on its second encounter via
term `beta` — so `X` appears in the final keyword results with score 2; with
only the failing first term, `X` is filtered out entirely. -/
theorem keyword_filter_first_encounter_only :
    filtersPresent exFiltersA = true ∧
    passesFilters (exEnvA.docMeta (some "X")) exFiltersA = false ∧
    (performKeywordSearch "alpha" 10 exFiltersA exEnvA) = [] ∧
    (performKeywordSearch "alpha beta" 10 exFiltersA exEnvA).map
      (fun r => (r.chunkId, r.score)) = [("X", 2)] := by
  refine ⟨by decide, by decide, by decide, by decide⟩

/-! ## C10: CORS headers on the POST search routes -/

theorem corsContract_of_ct (s : Nat) (b : RespBody) (h : s ≠ 200) :
    corsContract { status := s, headers := contentTypeJson, body := b } :=
  ⟨fun hh => absurd hh h, fun _ => rfl⟩

theorem corsContract_405 (b : RespBody) :
    corsContract { status := 405, headers := [], body := b } :=
  ⟨fun h => by simp at h,
   fun h => by rcases h with h | h <;> simp at h⟩

theorem corsContract_ok (b : RespBody) :
    corsContract { status := 200, headers := contentTypeJson ++ getCorsHeaders, body := b } :=
  ⟨fun _ => by refine ⟨?_, ?_, ?_⟩ <;> simp [contentTypeJson, getCorsHeaders],
   fun h => by rcases h with h | h <;> simp at h⟩

/-- C10: on `/hybrid-search`, `/vector-search` and `/keyword-search`, every
200 response carries the three CORS headers, while the 400 `INVALID_REQUEST`
and 500 `SEARCH_FAILED` responses built inside those handlers carry exactly
the `Content-Type` header — in particular no `Access-Control-Allow-Origin`. -/
theorem search_routes_cors :
    ∀ (method : String) (hb : Except Unit HybridBody) (sb sb2 : Except Unit SingleBody)
      (senv : SearchEnv) (venv : VecEnv) (kenv : KWEnv),
      corsContract (handleHybridSearch method hb senv) ∧
      corsContract (handleVectorSearch method sb venv) ∧
      corsContract (handleKeywordSearch method sb2 kenv) := by
  intro method hb sb sb2 senv venv kenv
  refine ⟨?_, ?_, ?_⟩
  · unfold handleHybridSearch
    split
    · exact corsContract_405 _
    · split
      · exact corsContract_of_ct _ _ (by decide)
      · dsimp only
        split
        · exact corsContract_of_ct _ _ (by decide)
        · exact corsContract_ok _
  · unfold handleVectorSearch
    split
    · exact corsContract_405 _
    · split
      · exact corsContract_of_ct _ _ (by decide)
      · split
        · exact corsContract_of_ct _ _ (by decide)
        · exact corsContract_ok _
  · unfold handleKeywordSearch
    split
    · exact corsContract_405 _
    · split
      · exact corsContract_of_ct _ _ (by decide)
      · split
        · exact corsContract_of_ct _ _ (by decide)
        · exact corsContract_ok _

/-- Witness for C10: the empty-queries 400 response carries exactly the
`Content-Type` header. -/
theorem search_routes_cors_witness :
    (handleHybridSearch "POST" (Except.ok { queries := some [] }) exSearchEnv).headers
      = contentTypeJson :=
  (search_routes_cors "POST" (Except.ok { queries := some [] })
    (Except.ok {}) (Except.ok {}) exSearchEnv exVecEnv0 exKWEnv0).1.2 (Or.inl rfl)

/-! ## C8: KV migration validate-only mode -/

theorem invalid_mem_checkLines (name : String) :
    ∀ (ls : List JLine) (i j : Nat) (k v : Bool),
      ls.get? j = some (JLine.entry k v) → (k && v) = false →
      (∀ m, m < j → ∀ l, ls.get? m = some l →
        l = JLine.blank ∨ ∃ k' v', l = JLine.entry k' v' ∧ (k' && v') = false) →
      VEvent.invalidFormat name (i + j + 1) ∈ checkLines name ls i := by
  intro ls
  induction ls with
  | nil =>
    intro i j k v hj
    simp at hj
  | cons hd tl ih =>
    intro i j k v hj hkv hpre
    cases j with
    | zero =>
      have hhd : hd = JLine.entry k v := by simpa using hj
      subst hhd
      simp [checkLines, hkv]
    | succ j' =>
      have h0 := hpre 0 (Nat.succ_pos _) hd rfl
      have hj' : tl.get? j' = some (JLine.entry k v) := by simpa using hj
      have hpre' : ∀ m, m < j' → ∀ l, tl.get? m = some l →
          l = JLine.blank ∨ ∃ k' v', l = JLine.entry k' v' ∧ (k' && v') = false :=
        fun m hm l hl => hpre (m + 1) (Nat.succ_lt_succ hm) l (by simpa using hl)
      have hrec := ih (i + 1) j' k v hj' hkv hpre'
      have harith : i + (j' + 1) + 1 = i + 1 + j' + 1 := by omega
      rcases h0 with hb | ⟨k', v', hent, hkv'⟩
      · subst hb
        rw [harith]
        simpa [checkLines] using hrec
      · subst hent
        rw [harith]
        simp [checkLines, hkv']
        exact Or.inr hrec

/-- C8: a `--validate` run performs no KV writes; validation looks only at
each file's first 3 lines; and, within that window, every parsed data line
preceded only by blank or under-filled lines that itself lacks a truthy `key`
or `value` is reported invalid (line numbers are 1-based). -/
theorem validate_mode_spec :
    ∀ (args : List String) (files : String → Option KVFile),
      args.contains "--validate" = true → args.contains "--help" = false →
      (mainRun args files).writes = [] ∧
      validateKVData files = validateKVData (fun n => (files n).map (fun f => f.take 3)) ∧
      (∀ name f j k v, files name = some f → name ∈ kvFileNames →
        (f.take 3).get? j = some (JLine.entry k v) → (k && v) = false →
        (∀ m, m < j → ∀ l, (f.take 3).get? m = some l →
          l = JLine.blank ∨ ∃ k' v', l = JLine.entry k' v' ∧ (k' && v') = false) →
        VEvent.invalidFormat name (j + 1) ∈ (mainRun args files).events) := by
  intro args files hv hh
  have hmain : mainRun args files = { events := validateKVData files, writes := [] } := by
    unfold mainRun
    rw [hh, hv]
    simp
  refine ⟨by rw [hmain], ?_, ?_⟩
  · have hfun : (fun name => match files name with
        | none => [VEvent.missingFile name]
        | some f => checkLines name (f.take 3) 0) =
        (fun name => match (files name).map (fun f => f.take 3) with
        | none => [VEvent.missingFile name]
        | some f => checkLines name (f.take 3) 0) := by
      funext name
      cases files name with
      | none => rfl
      | some f => simp [List.take_take]
    unfold validateKVData
    exact congrArg _ hfun
  · intro name f j k v hf hname hj hkv hpre
    have hmem : VEvent.invalidFormat name (j + 1) ∈ checkLines name (f.take 3) 0 := by
      have h := invalid_mem_checkLines name (f.take 3) 0 j k v hj hkv hpre
      simpa using h
    rw [hmain]
    show VEvent.invalidFormat name (j + 1) ∈ validateKVData files
    unfold validateKVData
    refine List.mem_flatMap.mpr ⟨name, hname, ?_⟩
    rw [hf]
    exact hmem

/-! ## C3: keyword-search scores, ordering, truncation -/

theorem processPosting_no_filters (filters : Filters) (env : KWEnv)
    (hf : filtersPresent filters = false) (st : KWState) (p : Posting) :
    (processPosting filters env st p).documentScores =
      accumScore st.documentScores (effChunkId p) p.score := by
  unfold processPosting
  by_cases hh : mapHas st.documentMetadata (effChunkId p) = true
  · simp [hh]
  · simp [hh, hf]

theorem foldl_processPosting_scores (filters : Filters) (env : KWEnv)
    (hf : filtersPresent filters = false) :
    ∀ (ps : List Posting) (st : KWState),
      (ps.foldl (processPosting filters env) st).documentScores =
        ps.foldl accumStep st.documentScores := by
  intro ps
  induction ps with
  | nil => intro st; rfl
  | cons p ps ih =>
    intro st
    rw [List.foldl_cons, List.foldl_cons, ih]
    unfold accumStep
    rw [processPosting_no_filters filters env hf]

theorem kwLoop_scores_no_filters (filters : Filters) (env : KWEnv)
    (hf : filtersPresent filters = false) (queryTerms : List String) :
    (kwLoop filters env queryTerms).documentScores =
      (queryTerms.flatMap (postingsOfTerm env)).foldl accumStep [] := by
  suffices h : ∀ (terms : List String) (st : KWState),
      (terms.foldl (fun st term =>
        match env.term term with
        | some termData =>
          match termData.postingsList with
          | some ps => ps.foldl (processPosting filters env) st
          | none => st
        | none => st) st).documentScores =
        (terms.flatMap (postingsOfTerm env)).foldl accumStep st.documentScores by
    exact h queryTerms initKWState
  intro terms
  induction terms with
  | nil => intro st; rfl
  | cons t ts ih =>
    intro st
    rw [List.foldl_cons, List.flatMap_cons, List.foldl_append]
    cases ht : env.term t with
    | none => simp [ih, postingsOfTerm, ht]
    | some td =>
      cases hp : td.postingsList with
      | none => simp [ih, postingsOfTerm, ht, hp]
      | some ps =>
        rw [ih]
        simp [postingsOfTerm, ht, hp,
          foldl_processPosting_scores filters env hf]

theorem mapGet_accumScore_self (m : List (Option String × ℚ)) (k : Option String)
    (s : ℚ) :
    mapGet (accumScore m k s) k =
      some (match mapGet m k with | some v => v + s | none => s) := by
  unfold accumScore
  cases h : mapGet m k <;> simp [mapGet_mapSet_self]

theorem mapGet_accumScore_ne (m : List (Option String × ℚ)) (k c : Option String)
    (s : ℚ) (h : c ≠ k) :
    mapGet (accumScore m k s) c = mapGet m c := by
  unfold accumScore
  cases mapGet m k <;> exact mapGet_mapSet_ne _ _ _ _ h

theorem nodup_keys_accumScore (m : List (Option String × ℚ)) (k : Option String)
    (s : ℚ) (h : (mapKeys m).Nodup) : (mapKeys (accumScore m k s)).Nodup := by
  unfold accumScore
  cases mapGet m k <;> exact nodup_mapKeys_mapSet _ _ _ h

theorem nodup_keys_foldl_accumStep (ps : List Posting) :
    ∀ (m : List (Option String × ℚ)), (mapKeys m).Nodup →
      (mapKeys (ps.foldl accumStep m)).Nodup := by
  induction ps with
  | nil => intro m h; exact h
  | cons p ps ih =>
    intro m h
    rw [List.foldl_cons]
    exact ih _ (nodup_keys_accumScore _ _ _ h)

theorem foldl_accumStep_get (ps : List Posting) :
    ∀ (m : List (Option String × ℚ)) (k : Option String),
      mapGet (ps.foldl accumStep m) k =
        addOpt (mapGet m k) (ps.filter (fun p => effChunkId p = k)) := by
  induction ps with
  | nil =>
    intro m k
    cases h : mapGet m k <;> simp [h, addOpt]
  | cons p ps ih =>
    intro m k
    rw [List.foldl_cons, ih]
    by_cases hk : effChunkId p = k
    · subst hk
      rw [show accumStep m p = accumScore m (effChunkId p) p.score from rfl,
        mapGet_accumScore_self]
      rw [List.filter_cons_of_pos (by simp)]
      cases hm : mapGet m (effChunkId p) with
      | none =>
        cases hrel : ps.filter (fun q => effChunkId q = effChunkId p) with
        | nil => simp [addOpt]
        | cons r rl => simp [addOpt, add_comm]
      | some v =>
        cases hrel : ps.filter (fun q => effChunkId q = effChunkId p) with
        | nil => simp [addOpt]
        | cons r rl => simp [addOpt, add_assoc]
    · rw [show accumStep m p = accumScore m (effChunkId p) p.score from rfl,
        mapGet_accumScore_ne _ _ _ _ (fun h => hk h.symm)]
      rw [List.filter_cons_of_neg (by simp [hk])]

theorem performKeywordSearch_eq (query : String) (maxResults : Nat)
    (filters : Filters) (env : KWEnv) :
    performKeywordSearch query maxResults filters env =
      if (tokenizeQuery query).length = 0 then []
      else
        (((((kwLoop filters env (tokenizeQuery query)).documentScores.map (fun kv =>
          { chunkId := (jsOrStr kv.1 (some "unknown")).getD "unknown",
            score := kv.2,
            metadata :=
              (mapGet (kwLoop filters env (tokenizeQuery query)).documentMetadata
                kv.1).getD {},
            matchedTerms := tokenizeQuery query : KWResult })).filter
            (fun r => r.chunkId ≠ "unknown")).insertionSort kwDesc).take maxResults) :=
  rfl

/-- C3 (amended): when no facet filters are supplied, every output chunk's
keyword score equals the sum of that chunk's posting scores across all
matched term occurrences (a repeated query token contributes once per
occurrence), `matchedTerms` is the full query term list, every output chunkId
is truthy (and not the `unknown` sentinel), results are sorted by score
descending, and the list is truncated to `maxResults`. -/
theorem keyword_search_no_filters_spec :
    ∀ (query : String) (maxResults : Nat) (filters : Filters) (env : KWEnv),
      filtersPresent filters = false →
      (∀ r ∈ performKeywordSearch query maxResults filters env,
        r.score = sumScoresFor env query r.chunkId ∧
        r.matchedTerms = tokenizeQuery query ∧
        r.chunkId ≠ "unknown" ∧ r.chunkId ≠ "") ∧
      (performKeywordSearch query maxResults filters env).Sorted kwDesc ∧
      (performKeywordSearch query maxResults filters env).length ≤ maxResults := by
  intro query maxResults filters env hf
  by_cases hz : (tokenizeQuery query).length = 0
  · have h0 : performKeywordSearch query maxResults filters env = [] := by
      rw [performKeywordSearch_eq, if_pos hz]
    rw [h0]
    exact ⟨fun r hr => absurd hr (List.not_mem_nil r), List.sorted_nil, by simp⟩
  · have h0 : performKeywordSearch query maxResults filters env =
        (((((kwLoop filters env (tokenizeQuery query)).documentScores.map (fun kv =>
          { chunkId := (jsOrStr kv.1 (some "unknown")).getD "unknown",
            score := kv.2,
            metadata :=
              (mapGet (kwLoop filters env (tokenizeQuery query)).documentMetadata
                kv.1).getD {},
            matchedTerms := tokenizeQuery query : KWResult })).filter
            (fun r => r.chunkId ≠ "unknown")).insertionSort kwDesc).take maxResults) := by
      rw [performKeywordSearch_eq, if_neg hz]
    refine ⟨?_, ?_, ?_⟩
    · intro r hr
      rw [h0] at hr
      have hr1 := List.take_subset _ _ hr
      have hr2 := (List.mem_insertionSort kwDesc).mp hr1
      obtain ⟨hr3, hPdec⟩ := List.mem_filter.mp hr2
      obtain ⟨kv, hkv, rfl⟩ := List.mem_map.mp hr3
      have hP : (jsOrStr kv.1 (some "unknown")).getD "unknown" ≠ "unknown" := by
        simpa using hPdec
      have hscores : (kwLoop filters env (tokenizeQuery query)).documentScores =
          (flatPostings env query).foldl accumStep [] :=
        kwLoop_scores_no_filters filters env hf (tokenizeQuery query)
      have hnd : (mapKeys (kwLoop filters env (tokenizeQuery query)).documentScores).Nodup := by
        rw [hscores]
        exact nodup_keys_foldl_accumStep _ [] (by simp [mapKeys])
      have hget := mapGet_eq_some_of_mem _ _ _ hnd hkv
      rw [hscores, foldl_accumStep_get, mapGet_nil] at hget
      obtain ⟨k1, sc⟩ := kv
      cases k1 with
      | none =>
        exact absurd (by simp [jsOrStr]) hP
      | some s =>
        by_cases hs : s.isEmpty
        · exact absurd (by simp [jsOrStr, hs]) hP
        · have hcid : (jsOrStr (some s) (some "unknown")).getD "unknown" = s := by
            simp [jsOrStr, hs]
          rw [hcid] at hP ⊢
          have hse : s ≠ "" := by
            intro he
            subst he
            exact hs (by decide)
          cases hrel : (flatPostings env query).filter
              (fun p => effChunkId p = some s) with
          | nil =>
            rw [hrel] at hget
            simp [addOpt] at hget
          | cons p0 ps0 =>
            rw [hrel] at hget
            have hsc : sc = ((p0 :: ps0).map (fun p => p.score)).sum := by
              have : addOpt none (p0 :: ps0) =
                  some (((p0 :: ps0).map (fun p => p.score)).sum) := rfl
              rw [this] at hget
              exact (Option.some.injEq .. ▸ hget).symm
            refine ⟨?_, rfl, hP, hse⟩
            show sc = sumScoresFor env query s
            unfold sumScoresFor
            rw [hrel]
            exact hsc
    · rw [h0]
      exact List.Pairwise.sublist (List.take_sublist _ _)
        (List.sorted_insertionSort kwDesc _)
    · rw [h0]
      simp [List.length_take]

/-- Witness for C3's amended theorem at a concrete query and result. -/
theorem keyword_search_no_filters_spec_witness :
    exKWR ∈ performKeywordSearch "aa bb" 10 {} exEnvB ∧
    exKWR.score = sumScoresFor exEnvB "aa bb" exKWR.chunkId ∧
    exKWR.matchedTerms = tokenizeQuery "aa bb" ∧
    exKWR.chunkId ≠ "unknown" ∧ exKWR.chunkId ≠ "" :=
  ⟨by decide,
   (keyword_search_no_filters_spec "aa bb" 10 {} exEnvB rfl).1 exKWR (by decide)⟩

/-- C3 counterexample: with active filters, an output chunk's score is not
the sum of its posting scores across all matched terms — chunk `X` surfaces
with score 2 while its postings over `alpha beta` sum to 3. -/
theorem keyword_sum_claim_counterexample :
    ¬(∀ r ∈ performKeywordSearch "alpha beta" 10 exFiltersA exEnvA,
        r.score = sumScoresFor exEnvA "alpha beta" r.chunkId) ∧
    (performKeywordSearch "alpha beta" 10 exFiltersA exEnvA).map
      (fun r => (r.chunkId, r.score)) = [("X", 2)] ∧
    sumScoresFor exEnvA "alpha beta" "X" = 3 := by
  have hsum : sumScoresFor exEnvA "alpha beta" "X" = 3 := by
    have hfil : (flatPostings exEnvA "alpha beta").filter
        (fun p => effChunkId p = some "X") =
        [{ chunkId := some "X", chunk_id := none, score := 1 },
         { chunkId := some "X", chunk_id := none, score := 2 }] := by decide
    unfold sumScoresFor
    rw [hfil]
    norm_num
  have hout : (performKeywordSearch "alpha beta" 10 exFiltersA exEnvA).map
      (fun r => (r.chunkId, r.score)) = [("X", 2)] := by decide
  refine ⟨?_, hout, hsum⟩
  intro hall
  have hmem : ∀ r ∈ performKeywordSearch "alpha beta" 10 exFiltersA exEnvA,
      (r.chunkId, r.score) ∈ [(("X" : String), (2 : ℚ))] := by
    intro r hr
    rw [← hout]
    exact List.mem_map_of_mem _ hr
  have hne : (performKeywordSearch "alpha beta" 10 exFiltersA exEnvA) ≠ [] := by
    intro h
    rw [h] at hout
    simp at hout
  obtain ⟨r, hr⟩ := List.exists_mem_of_ne_nil _ hne
  have h1 := hall r hr
  have h2 := hmem r hr
  simp at h2
  rw [h2.1, hsum] at h1
  rw [h2.2] at h1
  norm_num at h1

/-- Witness for C8: one dataset file whose first data line lacks `value`. -/
theorem validate_mode_spec_witness :
    (mainRun ["--validate"] exFilesInvalid).writes = [] ∧
    VEvent.invalidFormat "kv_documents.jsonl" 1 ∈
      (mainRun ["--validate"] exFilesInvalid).events :=
  ⟨(validate_mode_spec ["--validate"] exFilesInvalid (by decide) (by decide)).1,
   (validate_mode_spec ["--validate"] exFilesInvalid (by decide) (by decide)).2.2
     "kv_documents.jsonl" [JLine.entry true false] 0 true false (by decide) (by decide)
     (by decide) (by decide) (fun m hm l _ => absurd hm (by omega))⟩

/-! ## Merge structure lemmas (C2, C4, C5) -/

theorem mem_jsDedupAux (l : List String) :
    ∀ (seen : List String) (t : String),
      t ∈ jsDedupAux seen l ↔ t ∈ l ∧ t ∉ seen := by
  induction l with
  | nil => intro seen t; simp [jsDedupAux]
  | cons a l ih =>
    intro seen t
    by_cases ha : a ∈ seen
    · simp only [jsDedupAux, if_pos ha, ih]
      constructor
      · rintro ⟨h1, h2⟩
        exact ⟨List.mem_cons_of_mem _ h1, h2⟩
      · rintro ⟨h1, h2⟩
        rcases List.mem_cons.mp h1 with rfl | h3
        · exact absurd ha h2
        · exact ⟨h3, h2⟩
    · simp only [jsDedupAux, if_neg ha, List.mem_cons, ih]
      constructor
      · rintro (rfl | ⟨h1, h2⟩)
        · exact ⟨Or.inl rfl, ha⟩
        · exact ⟨Or.inr h1, fun hs => h2 (Or.inr hs)⟩
      · rintro ⟨rfl | h1, h2⟩
        · exact Or.inl rfl
        · by_cases hta : t = a
          · exact Or.inl hta
          · exact Or.inr ⟨h1, by simp [hta, h2]⟩

theorem mem_jsDedup (l : List String) (t : String) : t ∈ jsDedup l ↔ t ∈ l := by
  unfold jsDedup
  rw [mem_jsDedupAux]
  simp

theorem addVectorResult_eq_stepHit (m : List (String × CombinedEntry)) (r : VecResult) :
    addVectorResult m r = stepHit m (vecHit r) := by
  unfold addVectorResult stepHit vecHit
  cases mapGet m r.chunkId <;> rfl

theorem addKeywordResult_eq_stepHit (m : List (String × CombinedEntry)) (r : KWResult) :
    addKeywordResult m r = stepHit m (kwHit r) := by
  unfold addKeywordResult stepHit kwHit
  cases mapGet m r.chunkId <;> rfl

theorem foldl_addVector_eq (vrs : List VecResult) :
    ∀ m, vrs.foldl addVectorResult m = (vrs.map vecHit).foldl stepHit m := by
  induction vrs with
  | nil => intro m; rfl
  | cons r rs ih =>
    intro m
    rw [List.foldl_cons, List.map_cons, List.foldl_cons, ih,
      addVectorResult_eq_stepHit]

theorem foldl_addKeyword_eq (krs : List KWResult) :
    ∀ m, krs.foldl addKeywordResult m = (krs.map kwHit).foldl stepHit m := by
  induction krs with
  | nil => intro m; rfl
  | cons r rs ih =>
    intro m
    rw [List.foldl_cons, List.map_cons, List.foldl_cons, ih,
      addKeywordResult_eq_stepHit]

theorem mergeLoop_eq_foldHits (sr : List QueryResult) :
    mergeLoop sr = (allHits sr).foldl stepHit [] := by
  suffices h : ∀ (l : List QueryResult) (m : List (String × CombinedEntry)),
      l.foldl (fun m qr =>
        let m1 := qr.vectorResults.foldl addVectorResult m
        qr.keywordResults.foldl addKeywordResult m1) m =
        (allHits l).foldl stepHit m by
    exact h sr []
  intro l
  induction l with
  | nil => intro m; rfl
  | cons qr l ih =>
    intro m
    rw [List.foldl_cons]
    show l.foldl _ (qr.keywordResults.foldl addKeywordResult
      (qr.vectorResults.foldl addVectorResult m)) = _
    rw [ih, foldl_addVector_eq, foldl_addKeyword_eq]
    unfold allHits
    rw [List.flatMap_cons, List.foldl_append]
    unfold queryHits
    rw [List.foldl_append]

theorem mapGet_stepHit_ne (m : List (String × CombinedEntry)) (a : Hit)
    (c : String) (hc : c ≠ a.chunkId) :
    mapGet (stepHit m a) c = mapGet m c := by
  unfold stepHit
  cases mapGet m a.chunkId <;> by_cases hv : a.isVector <;>
    simp [hv, mapGet_mapSet_ne _ _ _ _ hc]

theorem nodup_keys_stepHit (m : List (String × CombinedEntry)) (a : Hit)
    (h : (mapKeys m).Nodup) : (mapKeys (stepHit m a)).Nodup := by
  unfold stepHit
  cases mapGet m a.chunkId <;> by_cases hv : a.isVector <;>
    simp [hv, nodup_mapKeys_mapSet _ _ _ h]

theorem nodup_keys_foldl_stepHit (hs : List Hit) :
    ∀ m, (mapKeys m).Nodup → (mapKeys (hs.foldl stepHit m)).Nodup := by
  induction hs with
  | nil => intro m h; exact h
  | cons a hs ih =>
    intro m h
    rw [List.foldl_cons]
    exact ih _ (nodup_keys_stepHit _ _ h)

theorem nodup_keys_mergeLoop (sr : List QueryResult) :
    (mapKeys (mergeLoop sr)).Nodup := by
  rw [mergeLoop_eq_foldHits]
  exact nodup_keys_foldl_stepHit _ [] (by simp [mapKeys])

theorem stepHit_of_none_vec (m : List (String × CombinedEntry)) (a : Hit)
    (hm : mapGet m a.chunkId = none) (hv : a.isVector = true) :
    stepHit m a = mapSet m a.chunkId
      { chunkId := a.chunkId, content := "", enrichedContent := "",
        metadata := formatMetadata a.metadata,
        scores := { vectorScore := a.score, keywordScore := 0,
                    hybridScore := 0, applicabilityScore := 0 },
        retrievalMethod := .vector, matchedTerms := [] } := by
  unfold stepHit
  simp [hm, hv]

theorem stepHit_of_none_kw (m : List (String × CombinedEntry)) (a : Hit)
    (hm : mapGet m a.chunkId = none) (hv : a.isVector = false) :
    stepHit m a = mapSet m a.chunkId
      { chunkId := a.chunkId, content := "", enrichedContent := "",
        metadata := formatMetadata a.metadata,
        scores := { vectorScore := 0, keywordScore := a.score,
                    hybridScore := 0, applicabilityScore := 0 },
        retrievalMethod := .keyword, matchedTerms := a.matchedTerms } := by
  unfold stepHit
  simp [hm, hv]

theorem stepHit_of_some_vec (m : List (String × CombinedEntry)) (a : Hit)
    (e0 : CombinedEntry) (hm : mapGet m a.chunkId = some e0) (hv : a.isVector = true) :
    stepHit m a = mapSet m a.chunkId
      { e0 with
        scores := { e0.scores with vectorScore := max e0.scores.vectorScore a.score },
        retrievalMethod := .hybrid } := by
  unfold stepHit
  simp [hm, hv]

theorem stepHit_of_some_kw (m : List (String × CombinedEntry)) (a : Hit)
    (e0 : CombinedEntry) (hm : mapGet m a.chunkId = some e0) (hv : a.isVector = false) :
    stepHit m a = mapSet m a.chunkId
      { e0 with
        scores := { e0.scores with keywordScore := max e0.scores.keywordScore a.score },
        retrievalMethod := .hybrid,
        matchedTerms := jsDedup (e0.matchedTerms ++ a.matchedTerms) } := by
  unfold stepHit
  simp [hm, hv]

theorem vScores_append (u v : List Hit) : vScores (u ++ v) = vScores u ++ vScores v := by
  simp [vScores, List.filter_append]

theorem kScores_append (u v : List Hit) : kScores (u ++ v) = kScores u ++ kScores v := by
  simp [kScores, List.filter_append]

theorem vScores_singleton_vec (a : Hit) (hv : a.isVector = true) :
    vScores [a] = [a.score] := by
  simp [vScores, hv]

theorem vScores_singleton_kw (a : Hit) (hv : a.isVector = false) :
    vScores [a] = [] := by
  simp [vScores, hv]

theorem kScores_singleton_vec (a : Hit) (hv : a.isVector = true) :
    kScores [a] = [] := by
  simp [kScores, hv]

theorem kScores_singleton_kw (a : Hit) (hv : a.isVector = false) :
    kScores [a] = [a.score] := by
  simp [kScores, hv]

theorem foldMax0_append_singleton (xs : List ℚ) (y : ℚ) :
    foldMax0 (xs ++ [y]) = max (foldMax0 xs) y := by
  simp [foldMax0, List.foldl_append]

/-- The single invariant of the merge loop: for each chunkId, the map entry
exists exactly when the chunk has a hit; its `retrievalMethod` is the single
hit's method when there is exactly one hit and `hybrid` otherwise; its
matched terms are the union of its keyword hits' terms; and (when all scores
are nonnegative) its vector/keyword scores are the max-from-0 folds of the
chunk's vector/keyword hit scores. -/
theorem stepHit_fold_char (hs : List Hit) :
    ∀ c : String,
      (mapGet (hs.foldl stepHit []) c = none → hitsFor c hs = []) ∧
      (∀ e, mapGet (hs.foldl stepHit []) c = some e →
        e.chunkId = c ∧
        (∃ h tl, hitsFor c hs = h :: tl ∧
          e.retrievalMethod =
            (if tl = [] then (if h.isVector then RMethod.vector else RMethod.keyword)
             else RMethod.hybrid)) ∧
        (∀ t, t ∈ e.matchedTerms ↔
          ∃ h ∈ hitsFor c hs, h.isVector = false ∧ t ∈ h.matchedTerms) ∧
        ((∀ h ∈ hs, 0 ≤ h.score) →
          e.scores.vectorScore = foldMax0 (vScores (hitsFor c hs)) ∧
          e.scores.keywordScore = foldMax0 (kScores (hitsFor c hs)))) := by
  induction hs using List.reverseRecOn with
  | nil =>
    intro c
    refine ⟨fun _ => by simp [hitsFor], fun e he => ?_⟩
    simp [mapGet] at he
  | append_singleton l a ih =>
    intro c
    have hfold : (l ++ [a]).foldl stepHit [] = stepHit (l.foldl stepHit []) a := by
      rw [List.foldl_append, List.foldl_cons, List.foldl_nil]
    by_cases hc : a.chunkId = c
    · subst hc
      have hsplit : hitsFor a.chunkId (l ++ [a]) = hitsFor a.chunkId l ++ [a] := by
        simp [hitsFor, List.filter_append]
      cases hm : mapGet (l.foldl stepHit []) a.chunkId with
      | none =>
        have hnil : hitsFor a.chunkId l = [] := ((ih a.chunkId).1) hm
        rw [hsplit, hnil, List.nil_append]
        constructor
        · intro hnone
          exfalso
          rw [hfold] at hnone
          by_cases hv : a.isVector
          · rw [stepHit_of_none_vec _ _ hm hv, mapGet_mapSet_self] at hnone
            exact Option.noConfusion hnone
          · rw [stepHit_of_none_kw _ _ hm (by simpa using hv),
              mapGet_mapSet_self] at hnone
            exact Option.noConfusion hnone
        · intro e he
          rw [hfold] at he
          by_cases hv : a.isVector
          · rw [stepHit_of_none_vec _ _ hm hv, mapGet_mapSet_self] at he
            obtain rfl : _ = e := Option.some.inj he
            refine ⟨rfl, ⟨a, [], rfl, by simp [hv]⟩, ?_, ?_⟩
            · intro t
              simp [hv]
            · intro hnn
              constructor
              · show a.score = foldMax0 (vScores [a])
                have : vScores [a] = [a.score] := by simp [vScores, hv]
                rw [this]
                show a.score = max 0 a.score
                exact (max_eq_right (hnn a (by simp))).symm
              · show (0 : ℚ) = foldMax0 (kScores [a])
                have : kScores [a] = [] := by simp [kScores, hv]
                rw [this]
                rfl
          · have hv' : a.isVector = false := by simpa using hv
            rw [stepHit_of_none_kw _ _ hm hv', mapGet_mapSet_self] at he
            obtain rfl : _ = e := Option.some.inj he
            refine ⟨rfl, ⟨a, [], rfl, by simp [hv']⟩, ?_, ?_⟩
            · intro t
              constructor
              · intro ht
                exact ⟨a, by simp, hv', ht⟩
              · rintro ⟨h', hh', _, ht⟩
                obtain rfl : h' = a := by simpa using hh'
                exact ht
            · intro hnn
              constructor
              · show (0 : ℚ) = foldMax0 (vScores [a])
                have : vScores [a] = [] := by simp [vScores, hv']
                rw [this]
                rfl
              · show a.score = foldMax0 (kScores [a])
                have : kScores [a] = [a.score] := by simp [kScores, hv']
                rw [this]
                show a.score = max 0 a.score
                exact (max_eq_right (hnn a (by simp))).symm
      | some e0 =>
        obtain ⟨hcid, ⟨h, tl, hhtl, hmeth⟩, hmt, hsc⟩ := ((ih a.chunkId).2) e0 hm
        rw [hhtl] at hmt hsc
        rw [hsplit, hhtl]
        constructor
        · intro hnone
          exfalso
          rw [hfold] at hnone
          by_cases hv : a.isVector
          · rw [stepHit_of_some_vec _ _ _ hm hv, mapGet_mapSet_self] at hnone
            exact Option.noConfusion hnone
          · rw [stepHit_of_some_kw _ _ _ hm (by simpa using hv),
              mapGet_mapSet_self] at hnone
            exact Option.noConfusion hnone
        · intro e he
          rw [hfold] at he
          by_cases hv : a.isVector
          · rw [stepHit_of_some_vec _ _ _ hm hv, mapGet_mapSet_self] at he
            obtain rfl : _ = e := Option.some.inj he
            refine ⟨hcid, ⟨h, tl ++ [a], by rw [List.cons_append], by simp⟩, ?_, ?_⟩
            · intro t
              have hiff := hmt t
              constructor
              · intro ht
                obtain ⟨h', hh', hfv, ht'⟩ := hiff.mp ht
                exact ⟨h', List.mem_append_left _ hh', hfv, ht'⟩
              · rintro ⟨h', hh', hfv, ht'⟩
                rcases List.mem_append.mp hh' with h1 | h2
                · exact hiff.mpr ⟨h', h1, hfv, ht'⟩
                · obtain rfl : h' = a := by simpa using h2
                  rw [hv] at hfv
                  cases hfv
            · intro hnn
              have hold := hsc (fun h' hh' => hnn h' (List.mem_append_left _ hh'))
              constructor
              · show max e0.scores.vectorScore a.score = _
                rw [vScores_append, vScores_singleton_vec a hv,
                  foldMax0_append_singleton, ← hold.1]
              · show e0.scores.keywordScore = _
                rw [kScores_append, kScores_singleton_vec a hv, List.append_nil]
                exact hold.2
          · have hv' : a.isVector = false := by simpa using hv
            rw [stepHit_of_some_kw _ _ _ hm hv', mapGet_mapSet_self] at he
            obtain rfl : _ = e := Option.some.inj he
            refine ⟨hcid, ⟨h, tl ++ [a], by rw [List.cons_append], by simp⟩, ?_, ?_⟩
            · intro t
              show t ∈ jsDedup (e0.matchedTerms ++ a.matchedTerms) ↔ _
              rw [mem_jsDedup, List.mem_append]
              constructor
              · rintro (ht | ht)
                · obtain ⟨h', hh', hfv, ht'⟩ := (hmt t).mp ht
                  exact ⟨h', List.mem_append_left _ hh', hfv, ht'⟩
                · exact ⟨a, List.mem_append_right _ (by simp), hv', ht⟩
              · rintro ⟨h', hh', hfv, ht'⟩
                rcases List.mem_append.mp hh' with h1 | h2
                · exact Or.inl ((hmt t).mpr ⟨h', h1, hfv, ht'⟩)
                · obtain rfl : h' = a := by simpa using h2
                  exact Or.inr ht'
            · intro hnn
              have hold := hsc (fun h' hh' => hnn h' (List.mem_append_left _ hh'))
              constructor
              · show e0.scores.vectorScore = _
                rw [vScores_append, vScores_singleton_kw a hv', List.append_nil]
                exact hold.1
              · show max e0.scores.keywordScore a.score = _
                rw [kScores_append, kScores_singleton_kw a hv',
                  foldMax0_append_singleton, ← hold.2]
    · have hsame : hitsFor c (l ++ [a]) = hitsFor c l := by
        simp [hitsFor, List.filter_append, hc]
      have hget : mapGet ((l ++ [a]).foldl stepHit []) c = mapGet (l.foldl stepHit []) c := by
        rw [hfold]
        exact mapGet_stepHit_ne _ _ _ (fun h => hc h.symm)
      rw [hget, hsame]
      refine ⟨fun hnone => (ih c).1 hnone, fun e he => ?_⟩
      obtain ⟨h1, h2, h3, h4⟩ := (ih c).2 e he
      exact ⟨h1, h2, h3,
        fun hnn => h4 (fun h' hh' => hnn h' (List.mem_append_left _ hh'))⟩

theorem combine_eq (sr : List QueryResult) (w : Weights) (rb : Bool)
    (env : ContentEnv) :
    combineSearchResults sr w rb env =
      (if rb then
        ((mergeLoop sr).map (finalizeEntry w env)).filter
          (fun r => r.retrievalMethod = RMethod.hybrid)
       else (mergeLoop sr).map (finalizeEntry w env)) := by
  simp only [combineSearchResults, List.map_map]
  rfl

theorem mem_combine (sr : List QueryResult) (w : Weights) (rb : Bool)
    (env : ContentEnv) (r : CombinedEntry) :
    r ∈ combineSearchResults sr w rb env ↔
      ((∃ kv ∈ mergeLoop sr, r = finalizeEntry w env kv) ∧
       (rb = true → r.retrievalMethod = RMethod.hybrid)) := by
  rw [combine_eq]
  cases rb with
  | false =>
    rw [if_neg (by simp)]
    constructor
    · intro hr
      obtain ⟨kv, hkv, heq⟩ := List.mem_map.mp hr
      exact ⟨⟨kv, hkv, heq.symm⟩, fun h => absurd h (by simp)⟩
    · rintro ⟨⟨kv, hkv, rfl⟩, _⟩
      exact List.mem_map_of_mem _ hkv
  | true =>
    rw [if_pos rfl]
    constructor
    · intro hr
      obtain ⟨hr1, hp⟩ := List.mem_filter.mp hr
      obtain ⟨kv, hkv, heq⟩ := List.mem_map.mp hr1
      exact ⟨⟨kv, hkv, heq.symm⟩, fun _ => by simpa using hp⟩
    · rintro ⟨⟨kv, hkv, rfl⟩, hmeth⟩
      exact List.mem_filter.mpr
        ⟨List.mem_map_of_mem _ hkv, by simpa using hmeth rfl⟩

/-! ## C5: score formulas -/

/-- C5: every merged result satisfies
`hybridScore = vectorScore * w.vector + keywordScore * w.keyword` and
`applicabilityScore = 0.8` exactly when `retrievalMethod` is hybrid, `0.6`
otherwise; the handler defaults absent weights to `{vector: 0.6, keyword:
0.4}`, and the claim's worked example `0.9*0.6 + 0.5*0.4 = 0.74` holds. -/
theorem hybrid_score_formula :
    (∀ (sr : List QueryResult) (w : Weights) (rb : Bool) (env : ContentEnv),
      ∀ r ∈ combineSearchResults sr w rb env,
        r.scores.hybridScore =
          r.scores.vectorScore * w.vector + r.scores.keywordScore * w.keyword ∧
        r.scores.applicabilityScore =
          (if r.retrievalMethod = RMethod.hybrid then (8 : ℚ)/10 else 6/10)) ∧
    resolveHybridWeights none = { vector := 6/10, keyword := 4/10 } ∧
    (9 : ℚ)/10 * (6/10) + 5/10 * (4/10) = 74/100 := by
  refine ⟨?_, rfl, by norm_num⟩
  intro sr w rb env r hr
  obtain ⟨⟨kv, hkv, rfl⟩, _⟩ := (mem_combine sr w rb env r).mp hr
  exact ⟨rfl, rfl⟩

/-- Witness for C5 at a concrete merge. -/
theorem hybrid_score_formula_witness :
    exC5Entry ∈ combineSearchResults exC5SR { vector := 2, keyword := 3 }
      false trivContentEnv ∧
    exC5Entry.scores.hybridScore =
      exC5Entry.scores.vectorScore * (2 : ℚ) + exC5Entry.scores.keywordScore * 3 ∧
    exC5Entry.scores.applicabilityScore =
      (if exC5Entry.retrievalMethod = RMethod.hybrid then (8 : ℚ)/10 else 6/10) :=
  have hmem : exC5Entry ∈ combineSearchResults exC5SR { vector := 2, keyword := 3 }
      false trivContentEnv := by
    rw [show combineSearchResults exC5SR { vector := 2, keyword := 3 } false
      trivContentEnv = [exC5Entry] from rfl]
    exact List.mem_singleton_self _
  ⟨hmem,
   (hybrid_score_formula.1 exC5SR { vector := 2, keyword := 3 } false
     trivContentEnv exC5Entry hmem).1,
   (hybrid_score_formula.1 exC5SR { vector := 2, keyword := 3 } false
     trivContentEnv exC5Entry hmem).2⟩

/-! ## C2: retrievalMethod vs contributions -/

/-- C2 counterexample: two queries contribute only vector hits for chunk `X`
(no keyword contribution anywhere), yet the merged result's retrievalMethod is
`hybrid`, not `vector`. -/
theorem vector_only_marked_hybrid :
    (∀ qr ∈ exVecOnlySR, qr.keywordResults = []) ∧
    (combineSearchResults exVecOnlySR { vector := 2, keyword := 3 } false
      trivContentEnv).map (fun r => (r.chunkId, r.retrievalMethod)) =
      [("X", RMethod.hybrid)] :=
  ⟨by decide, by decide⟩

/-- C2 (amended): a merged result's retrievalMethod is `hybrid` exactly when
its chunkId received two or more hits (of any mix of methods, across all
queries) — in particular whenever both a vector and a keyword contribution
exist; it is `vector` (resp. `keyword`) exactly when the chunkId received
exactly one hit and that hit is a vector (resp. keyword) hit. -/
theorem retrieval_method_characterization :
    ∀ (sr : List QueryResult) (w : Weights) (rb : Bool) (env : ContentEnv),
      ∀ r ∈ combineSearchResults sr w rb env,
        (r.retrievalMethod = RMethod.hybrid ↔
          2 ≤ (hitsFor r.chunkId (allHits sr)).length) ∧
        (r.retrievalMethod = RMethod.vector ↔
          ∃ h, hitsFor r.chunkId (allHits sr) = [h] ∧ h.isVector = true) ∧
        (r.retrievalMethod = RMethod.keyword ↔
          ∃ h, hitsFor r.chunkId (allHits sr) = [h] ∧ h.isVector = false) := by
  intro sr w rb env r hr
  obtain ⟨⟨kv, hkv, rfl⟩, _⟩ := (mem_combine sr w rb env r).mp hr
  obtain ⟨c, e⟩ := kv
  have hget : mapGet ((allHits sr).foldl stepHit []) c = some e := by
    rw [← mergeLoop_eq_foldHits]
    exact mapGet_eq_some_of_mem _ _ _ (nodup_keys_mergeLoop sr) hkv
  obtain ⟨hcid, ⟨h, tl, hhtl, hmeth⟩, _, _⟩ :=
    (stepHit_fold_char (allHits sr) c).2 e hget
  have hrc : (finalizeEntry w env (c, e)).chunkId = c := hcid
  have hrm : (finalizeEntry w env (c, e)).retrievalMethod = e.retrievalMethod := rfl
  rw [hrc, hrm, hhtl, hmeth]
  cases tl with
  | nil =>
    cases hb : h.isVector <;>
      refine ⟨?_, ?_, ?_⟩ <;> simp [hb]
  | cons x xs =>
    refine ⟨?_, ?_, ?_⟩ <;> simp

/-- Witness for C2's amended theorem at a concrete merge. -/
theorem retrieval_method_characterization_witness :
    (exVecOnlyEntry.retrievalMethod = RMethod.hybrid ↔
      2 ≤ (hitsFor exVecOnlyEntry.chunkId (allHits exVecOnlySR)).length) ∧
    (exVecOnlyEntry.retrievalMethod = RMethod.vector ↔
      ∃ h, hitsFor exVecOnlyEntry.chunkId (allHits exVecOnlySR) = [h] ∧
        h.isVector = true) ∧
    (exVecOnlyEntry.retrievalMethod = RMethod.keyword ↔
      ∃ h, hitsFor exVecOnlyEntry.chunkId (allHits exVecOnlySR) = [h] ∧
        h.isVector = false) :=
  retrieval_method_characterization exVecOnlySR { vector := 2, keyword := 3 }
    false trivContentEnv exVecOnlyEntry
    (by rw [show combineSearchResults exVecOnlySR { vector := 2, keyword := 3 }
        false trivContentEnv = [exVecOnlyEntry] from rfl]
        exact List.mem_singleton_self _)

/-! ## C4: merge commutativity -/

theorem foldl_max_swap (l : List ℚ) :
    ∀ a b : ℚ, List.foldl max (max a b) l = max b (List.foldl max a l) := by
  induction l with
  | nil => intro a b; simp [max_comm]
  | cons x xs ih =>
    intro a b
    rw [List.foldl_cons, List.foldl_cons, sup_right_comm]
    exact ih (max a x) b

theorem foldl_max_exchange (l1 : List ℚ) :
    ∀ (l2 : List ℚ) (a : ℚ),
      List.foldl max (List.foldl max a l1) l2 =
        List.foldl max (List.foldl max a l2) l1 := by
  induction l1 with
  | nil => intro l2 a; simp
  | cons x xs ih =>
    intro l2 a
    rw [List.foldl_cons, ih l2 (max a x), foldl_max_swap l2 a x,
      List.foldl_cons, max_comm x (List.foldl max a l2)]

theorem foldMax0_append_comm (u v : List ℚ) :
    foldMax0 (u ++ v) = foldMax0 (v ++ u) := by
  unfold foldMax0
  rw [List.foldl_append, List.foldl_append]
  exact foldl_max_exchange u v 0

/-- Presence of a chunkId in the merged output, in terms of its hits. -/
theorem exists_chunk_combine_iff (sr : List QueryResult) (w : Weights) (rb : Bool)
    (env : ContentEnv) (c : String) :
    (∃ r ∈ combineSearchResults sr w rb env, r.chunkId = c) ↔
      (hitsFor c (allHits sr) ≠ [] ∧
       (rb = true → 2 ≤ (hitsFor c (allHits sr)).length)) := by
  constructor
  · rintro ⟨r, hr, hc⟩
    obtain ⟨⟨kv, hkv, rfl⟩, hrb⟩ := (mem_combine sr w rb env _).mp hr
    obtain ⟨ck, e⟩ := kv
    have hget : mapGet ((allHits sr).foldl stepHit []) ck = some e := by
      rw [← mergeLoop_eq_foldHits]
      exact mapGet_eq_some_of_mem _ _ _ (nodup_keys_mergeLoop sr) hkv
    obtain ⟨hcid, ⟨h, tl, hhtl, hmeth⟩, _, _⟩ :=
      (stepHit_fold_char (allHits sr) ck).2 e hget
    have hcc : ck = c := by
      have h1 : (finalizeEntry w env (ck, e)).chunkId = ck := hcid
      rw [h1] at hc
      exact hc
    subst hcc
    rw [hhtl]
    refine ⟨by simp, fun hrbt => ?_⟩
    have hem : e.retrievalMethod = RMethod.hybrid := hrb hrbt
    rw [hmeth] at hem
    by_cases htl : tl = []
    · rw [if_pos htl] at hem
      by_cases hbv : h.isVector = true
      · rw [if_pos hbv] at hem
        simp at hem
      · rw [if_neg hbv] at hem
        simp at hem
    · cases tl with
      | nil => exact absurd rfl htl
      | cons x xs => simp
  · rintro ⟨hne, hrb2⟩
    have hchar := stepHit_fold_char (allHits sr) c
    cases hm : mapGet ((allHits sr).foldl stepHit []) c with
    | none => exact absurd (hchar.1 hm) hne
    | some e =>
      obtain ⟨hcid, ⟨h, tl, hhtl, hmeth⟩, _, _⟩ := hchar.2 e hm
      have hkv : (c, e) ∈ mergeLoop sr := by
        rw [mergeLoop_eq_foldHits]
        exact mem_of_mapGet_eq_some _ _ _ hm
      refine ⟨finalizeEntry w env (c, e), ?_, hcid⟩
      refine (mem_combine sr w rb env _).mpr ⟨⟨(c, e), hkv, rfl⟩, fun hrbt => ?_⟩
      have hlen := hrb2 hrbt
      rw [hhtl] at hlen
      have htl : tl ≠ [] := by
        intro h0
        rw [h0] at hlen
        simp at hlen
      show e.retrievalMethod = RMethod.hybrid
      rw [hmeth, if_neg htl]

/-- C4 counterexample: with a negative vector score, processing order changes
a chunk's merged vectorScore — `-1` when the vector hit arrives first, `0`
(the keyword-side initialization fed into `Math.max`) when it arrives
second. -/
theorem merge_not_commutative_on_negative :
    (combineSearchResults [qrNegVec, qrKw] { vector := 2, keyword := 3 } false
      trivContentEnv).map (fun r => (r.chunkId, r.scores.vectorScore)) =
      [("X", -1)] ∧
    (combineSearchResults [qrKw, qrNegVec] { vector := 2, keyword := 3 } false
      trivContentEnv).map (fun r => (r.chunkId, r.scores.vectorScore)) =
      [("X", 0)] ∧
    (-1 : ℚ) ≠ 0 :=
  ⟨by decide, by decide, by decide⟩

/-- C4 (amended): when every hit score is nonnegative (as both backends
produce in practice), combining two per-query result sets in either
processing order yields the same chunkId set, with identical vectorScore,
keywordScore and hybridScore per chunk and the same matched-terms set. -/
theorem merge_commutative_nonneg :
    ∀ (A B : QueryResult) (w : Weights) (rb : Bool) (env : ContentEnv),
      (∀ h ∈ allHits [A, B], 0 ≤ h.score) →
      (∀ c : String,
        (∃ r ∈ combineSearchResults [A, B] w rb env, r.chunkId = c) ↔
        (∃ r ∈ combineSearchResults [B, A] w rb env, r.chunkId = c)) ∧
      (∀ r1 ∈ combineSearchResults [A, B] w rb env,
       ∀ r2 ∈ combineSearchResults [B, A] w rb env,
        r1.chunkId = r2.chunkId →
          r1.scores.vectorScore = r2.scores.vectorScore ∧
          r1.scores.keywordScore = r2.scores.keywordScore ∧
          r1.scores.hybridScore = r2.scores.hybridScore ∧
          (∀ t, t ∈ r1.matchedTerms ↔ t ∈ r2.matchedTerms)) := by
  intro A B w rb env hnn
  have hAB : allHits [A, B] = queryHits A ++ queryHits B := by
    simp [allHits]
  have hBA : allHits [B, A] = queryHits B ++ queryHits A := by
    simp [allHits]
  have hnn' : ∀ h ∈ allHits [B, A], 0 ≤ h.score := by
    intro h hh
    apply hnn
    rw [hAB]
    rw [hBA] at hh
    rcases List.mem_append.mp hh with h1 | h2
    · exact List.mem_append_right _ h1
    · exact List.mem_append_left _ h2
  have hfor : ∀ c, hitsFor c (allHits [A, B]) =
      hitsFor c (queryHits A) ++ hitsFor c (queryHits B) := by
    intro c
    rw [hAB]
    simp [hitsFor, List.filter_append]
  have hfor' : ∀ c, hitsFor c (allHits [B, A]) =
      hitsFor c (queryHits B) ++ hitsFor c (queryHits A) := by
    intro c
    rw [hBA]
    simp [hitsFor, List.filter_append]
  constructor
  · intro c
    rw [exists_chunk_combine_iff, exists_chunk_combine_iff, hfor c, hfor' c]
    constructor
    · rintro ⟨h1, h2⟩
      refine ⟨?_, fun hrbt => ?_⟩
      · intro h0
        apply h1
        rcases List.append_eq_nil.mp h0 with ⟨ha, hb⟩
        rw [ha, hb]
        rfl
      · have := h2 hrbt
        simpa [List.length_append, Nat.add_comm] using this
    · rintro ⟨h1, h2⟩
      refine ⟨?_, fun hrbt => ?_⟩
      · intro h0
        apply h1
        rcases List.append_eq_nil.mp h0 with ⟨ha, hb⟩
        rw [ha, hb]
        rfl
      · have := h2 hrbt
        simpa [List.length_append, Nat.add_comm] using this
  · intro r1 hr1 r2 hr2 hcc
    obtain ⟨⟨kv1, hkv1, rfl⟩, _⟩ := (mem_combine _ _ _ _ _).mp hr1
    obtain ⟨⟨kv2, hkv2, rfl⟩, _⟩ := (mem_combine _ _ _ _ _).mp hr2
    obtain ⟨c1, e1⟩ := kv1
    obtain ⟨c2, e2⟩ := kv2
    have hget1 : mapGet ((allHits [A, B]).foldl stepHit []) c1 = some e1 := by
      rw [← mergeLoop_eq_foldHits]
      exact mapGet_eq_some_of_mem _ _ _ (nodup_keys_mergeLoop _) hkv1
    have hget2 : mapGet ((allHits [B, A]).foldl stepHit []) c2 = some e2 := by
      rw [← mergeLoop_eq_foldHits]
      exact mapGet_eq_some_of_mem _ _ _ (nodup_keys_mergeLoop _) hkv2
    obtain ⟨hcid1, _, hmt1, hsc1⟩ := (stepHit_fold_char _ c1).2 e1 hget1
    obtain ⟨hcid2, _, hmt2, hsc2⟩ := (stepHit_fold_char _ c2).2 e2 hget2
    have hc12 : c1 = c2 := by
      have h1 : (finalizeEntry w env (c1, e1)).chunkId = c1 := hcid1
      have h2 : (finalizeEntry w env (c2, e2)).chunkId = c2 := hcid2
      rw [h1, h2] at hcc
      exact hcc
    subst hc12
    have hs1 := hsc1 hnn
    have hs2 := hsc2 hnn'
    have hv12 : e1.scores.vectorScore = e2.scores.vectorScore := by
      rw [hs1.1, hs2.1, hfor c1, hfor' c1, vScores_append, vScores_append,
        foldMax0_append_comm]
    have hk12 : e1.scores.keywordScore = e2.scores.keywordScore := by
      rw [hs1.2, hs2.2, hfor c1, hfor' c1, kScores_append, kScores_append,
        foldMax0_append_comm]
    refine ⟨hv12, hk12, ?_, ?_⟩
    · show e1.scores.vectorScore * w.vector + e1.scores.keywordScore * w.keyword =
        e2.scores.vectorScore * w.vector + e2.scores.keywordScore * w.keyword
      rw [hv12, hk12]
    · intro t
      show t ∈ e1.matchedTerms ↔ t ∈ e2.matchedTerms
      rw [hmt1 t, hmt2 t, hfor c1, hfor' c1]
      constructor
      · rintro ⟨h', hh', hf, ht⟩
        rcases List.mem_append.mp hh' with h1 | h2
        · exact ⟨h', List.mem_append_right _ h1, hf, ht⟩
        · exact ⟨h', List.mem_append_left _ h2, hf, ht⟩
      · rintro ⟨h', hh', hf, ht⟩
        rcases List.mem_append.mp hh' with h1 | h2
        · exact ⟨h', List.mem_append_right _ h1, hf, ht⟩
        · exact ⟨h', List.mem_append_left _ h2, hf, ht⟩

/-- Witness for C4's amended theorem at concrete nonnegative inputs. -/
theorem merge_commutative_nonneg_witness :
    (∃ r ∈ combineSearchResults [qrPosVec, qrKw] { vector := 2, keyword := 3 }
        false trivContentEnv, r.chunkId = "X") ↔
    (∃ r ∈ combineSearchResults [qrKw, qrPosVec] { vector := 2, keyword := 3 }
        false trivContentEnv, r.chunkId = "X") :=
  (merge_commutative_nonneg qrPosVec qrKw { vector := 2, keyword := 3 } false
    trivContentEnv (by decide)).1 "X"

end SentrySearch
